import Mathlib

/-!
Verification of the meeting-bot dashboard client (meahana-attendee).

The development shallowly embeds the canonical revisions of
`src/services/api.ts` (URL construction, request normalization, report
polling, bot listing) and `src/App.tsx` (the bot registry, status poller,
scorecard fetcher and deletion handler) and proves the stated properties
about them.  Strings are modelled as `List Char`; the browser network is
modelled as explicit request/response oracles; the single-threaded event
loop of the app is modelled as a small-step transition system whose
transitions are the (pure) embeddings of the source event handlers.
-/

namespace Meahana

/-! ### String primitives (JS `String` operations used by `api.ts`) -/

/-- `hasPre p s` is JS `s.startsWith(p)` for `List Char` strings. -/
def hasPre : List Char → List Char → Bool
  | [], _ => true
  | _ :: _, [] => false
  | p :: ps, c :: cs => p == c && hasPre ps cs

/-- JS `s.includes(p)`: `p` occurs as a contiguous substring of `s`. -/
def containsSub (p : List Char) : List Char → Bool
  | [] => p.isEmpty
  | s@(_ :: rest) => hasPre p s || containsSub p rest

/-- Number of positions of `s` at which the pattern `p` occurs
(overlapping occurrences are all counted). -/
def countOcc (p : List Char) : List Char → Nat
  | [] => if p.isEmpty then 1 else 0
  | s@(_ :: rest) => (if hasPre p s then 1 else 0) + countOcc p rest

/-- JS `s.replace(pat, repl)` with a *string* pattern: replaces only the
first occurrence of `pat` (and leaves `s` unchanged if there is none). -/
def replFirst (pat repl : List Char) : List Char → List Char
  | [] => []
  | s@(c :: rest) =>
    if hasPre pat s then repl ++ s.drop pat.length
    else c :: replFirst pat repl rest

/-- JS `s.endsWith(p)` for `List Char` strings. -/
def endsWithL (p s : List Char) : Bool := hasPre p.reverse s.reverse

/-- JS `s.replace(/\/$/, '')`: removes a single trailing slash. -/
def dropTrailingSlash (s : List Char) : List Char :=
  if s.getLast? = some '/' then s.dropLast else s

/-- Fuel-driven core of `collapseSlashes`; the fuel is the length of the
string, which bounds the number of scanning steps. -/
def csGo : Nat → List Char → List Char
  | 0, l => l
  | _ + 1, [] => []
  | fuel + 1, c :: rest =>
    if c ≠ ':' ∧ rest.head? = some '/' then
      c :: '/' :: csGo fuel (rest.dropWhile (· = '/'))
    else
      c :: csGo fuel rest

/-- JS `url.replace(/([^:])\/+/g, '$1/')`: scanning left to right, a
non-colon character followed by a maximal run of slashes is replaced by
that character and a single slash (so `"://"` is preserved while other
multi-slash runs collapse). -/
def collapseSlashes (l : List Char) : List Char := csGo l.length l

/-- The string `"/api"`. -/
def apiSeg : List Char := '/' :: 'a' :: 'p' :: 'i' :: []

/-- The string `"/api/"`. -/
def apiSegSlash : List Char := '/' :: 'a' :: 'p' :: 'i' :: '/' :: []

/-- The string `"/api/api/"`. -/
def apiApi : List Char :=
  '/' :: 'a' :: 'p' :: 'i' :: '/' :: 'a' :: 'p' :: 'i' :: '/' :: []

/-- `const cleanEndpoint = endpoint.startsWith('/') ? endpoint : '/'+endpoint`. -/
def cleanEndpointOf (endpoint : List Char) : List Char :=
  if hasPre ['/'] endpoint then endpoint else '/' :: endpoint

/-- The adjusted base: when the cleaned base ends with `/api` and the
endpoint starts with `/api/`, the trailing `/api` (four characters,
JS `slice(0, -4)`) is removed from the base. -/
def finalBaseOf (cleanBase cleanEndpoint : List Char) : List Char :=
  if endsWithL apiSeg cleanBase ∧ hasPre apiSegSlash cleanEndpoint then
    cleanBase.take (cleanBase.length - 4)
  else cleanBase

/-- The "final safety check" of `constructUrl`: if the collapsed URL still
contains `/api/api/`, its first occurrence is replaced by `/api/`. -/
def fixApiApi (u : List Char) : List Char :=
  if containsSub apiApi u then replFirst apiApi apiSegSlash u else u

/-- `constructUrl` from `src/services/api.ts` (lines 20–46): trims a
trailing slash from the base, forces the endpoint to start with `/`,
strips a trailing `/api` from the base when the endpoint starts with
`/api/`, concatenates, collapses duplicate slashes (protocol excepted),
and finally collapses a first occurrence of `/api/api/` if one remains. -/
def constructUrl (baseUrl endpoint : List Char) : List Char :=
  fixApiApi (collapseSlashes
    (finalBaseOf (dropTrailingSlash baseUrl) (cleanEndpointOf endpoint) ++
      cleanEndpointOf endpoint))

/-! ### Lemmas about the string primitives -/

theorem hasPre_eq_append {p s : List Char} (h : hasPre p s = true) :
    s = p ++ s.drop p.length := by
  induction p generalizing s with
  | nil => simp
  | cons a ps ih =>
    cases s with
    | nil => simp [hasPre] at h
    | cons b t =>
      simp only [hasPre, Bool.and_eq_true, beq_iff_eq] at h
      obtain ⟨rfl, h2⟩ := h
      simpa using ih h2

theorem hasPre_append (p t : List Char) : hasPre p (p ++ t) = true := by
  induction p with
  | nil => rfl
  | cons a ps ih => simp [hasPre, ih]

theorem hasPre_agree {p s₁ s₂ : List Char}
    (h : s₁.take p.length = s₂.take p.length) : hasPre p s₁ = hasPre p s₂ := by
  induction p generalizing s₁ s₂ with
  | nil => rfl
  | cons a ps ih =>
    cases s₁ with
    | nil =>
      cases s₂ with
      | nil => rfl
      | cons b t₂ => simp at h
    | cons b₁ t₁ =>
      cases s₂ with
      | nil => simp at h
      | cons b₂ t₂ =>
        simp only [List.length_cons, List.take_succ_cons, List.cons.injEq] at h
        obtain ⟨rfl, h2⟩ := h
        simp only [hasPre]
        rw [ih h2]

theorem countOcc_zero {p s : List Char} (h : countOcc p s = 0) :
    containsSub p s = false := by
  induction s with
  | nil =>
    simp only [countOcc] at h
    simp only [containsSub]
    cases hp : p.isEmpty with
    | false => rfl
    | true => simp [hp] at h
  | cons c rest ih =>
    simp only [countOcc] at h
    simp only [containsSub, Bool.or_eq_false_iff]
    cases hp : hasPre p (c :: rest) with
    | false =>
      refine ⟨rfl, ih ?_⟩
      simpa [hp] using h
    | true =>
      rw [hp] at h
      simp at h

theorem replFirst_of_not_contains {p q s : List Char}
    (h : containsSub p s = false) : replFirst p q s = s := by
  induction s with
  | nil => rfl
  | cons c rest ih =>
    simp only [containsSub, Bool.or_eq_false_iff] at h
    simp only [replFirst]
    rw [if_neg (by simp [h.1]), ih h.2]

theorem replFirst_decomp {p q s : List Char} (hp0 : p ≠ [])
    (h : containsSub p s = true) :
    ∃ u t, s = u ++ p ++ t ∧ replFirst p q s = u ++ q ++ t := by
  induction s with
  | nil =>
    simp only [containsSub, List.isEmpty_iff] at h
    exact absurd h hp0
  | cons c rest ih =>
    by_cases hp : hasPre p (c :: rest) = true
    · refine ⟨[], (c :: rest).drop p.length, ?_, ?_⟩
      · simpa using hasPre_eq_append hp
      · simp only [replFirst]
        rw [if_pos hp]
        simp
    · simp only [containsSub, Bool.or_eq_true] at h
      rcases h with h | h
      · exact absurd h hp
      · obtain ⟨u, t, hs, hr⟩ := ih h
        refine ⟨c :: u, t, by simp [hs], ?_⟩
        simp only [replFirst]
        rw [if_neg hp, hr]
        simp

/-- The string `"api/"`, the part of `"/api/api/"` after its `"/api/"` head. -/
def tail4 : List Char := 'a' :: 'p' :: 'i' :: '/' :: []

theorem apiApi_eq : apiApi = apiSegSlash ++ tail4 := rfl

theorem hasPre_and_elim {a : Char} {ps s : List Char}
    (h : hasPre ps s = false) (c : Char) : hasPre (a :: ps) (c :: s) = false := by
  simp [hasPre, h]

/-- Replacing the first occurrence of `/api/api/` by `/api/` removes every
occurrence when the string contained at most one to begin with. -/
theorem replFirst_apiApi_no_dup {s : List Char} (h : countOcc apiApi s ≤ 1) :
    containsSub apiApi (replFirst apiApi apiSegSlash s) = false := by
  induction s with
  | nil => rfl
  | cons c rest ih =>
    by_cases hp : hasPre apiApi (c :: rest) = true
    · have hs := hasPre_eq_append hp
      have hrest0 : countOcc apiApi rest = 0 := by
        have h' := h
        simp [countOcc, hp] at h'
        omega
      have hcr : containsSub apiApi rest = false := countOcc_zero hrest0
      have hseq : c :: rest =
          '/' :: 'a' :: 'p' :: 'i' :: '/' :: 'a' :: 'p' :: 'i' :: '/' ::
            (c :: rest).drop apiApi.length := hs
      have hrest : rest = 'a' :: 'p' :: 'i' :: '/' :: 'a' :: 'p' :: 'i' :: '/' ::
          (c :: rest).drop apiApi.length := by
        injection hseq with h1 h2
      rw [hrest] at hcr
      simp only [containsSub, Bool.or_eq_false_iff] at hcr
      obtain ⟨_, _, _, hA, _, _, _, hB, hC⟩ := hcr
      simp only [replFirst]
      rw [if_pos hp]
      show containsSub apiApi
        ('/' :: 'a' :: 'p' :: 'i' :: '/' :: (c :: rest).drop apiApi.length) = false
      simp only [containsSub, Bool.or_eq_false_iff]
      exact ⟨hA, rfl, rfl, rfl, hB, hC⟩
    · have hp' : hasPre apiApi (c :: rest) = false := by
        cases hx : hasPre apiApi (c :: rest) with
        | false => rfl
        | true => exact absurd hx hp
      have hcr1 : countOcc apiApi rest ≤ 1 := by
        simpa [countOcc, hp'] using h
      simp only [replFirst]
      rw [if_neg hp]
      by_cases hc : containsSub apiApi rest = true
      · obtain ⟨u, t, hsdec, hr⟩ :=
          replFirst_decomp (p := apiApi) (q := apiSegSlash) (by decide) hc
        rw [hr]
        simp only [containsSub, Bool.or_eq_false_iff]
        refine ⟨?_, ?_⟩
        · -- no new occurrence can appear at the head position
          rcases u with _ | ⟨x, _ | ⟨y, _ | ⟨z, u'⟩⟩⟩
          · refine hasPre_and_elim ?_ c
            rfl
          · refine hasPre_and_elim (hasPre_and_elim ?_ x) c
            rfl
          · refine hasPre_and_elim (hasPre_and_elim (hasPre_and_elim ?_ y) x) c
            rfl
          · -- the replacement site lies at least three characters in, so the
            -- first nine characters are unchanged and `hp'` transfers
            have e1 : c :: ((x :: y :: z :: u') ++ apiSegSlash ++ t) =
                (c :: x :: y :: z :: (u' ++ apiSegSlash)) ++ t := by simp
            have e2 : c :: rest =
                (c :: x :: y :: z :: (u' ++ apiSegSlash)) ++ (tail4 ++ t) := by
              rw [hsdec, apiApi_eq]; simp
            have hlen : apiApi.length ≤
                (c :: x :: y :: z :: (u' ++ apiSegSlash)).length := by
              simp only [apiApi, apiSegSlash, List.length_cons, List.length_append,
                List.length_nil]
              omega
            have htake : (c :: ((x :: y :: z :: u') ++ apiSegSlash ++ t)).take
                  apiApi.length = (c :: rest).take apiApi.length := by
              rw [e1, e2, List.take_append_of_le_length hlen,
                List.take_append_of_le_length hlen]
            rw [hasPre_agree htake]
            exact hp'
        · rw [← hr]
          exact ih hcr1
      · have hc' : containsSub apiApi rest = false := by
          cases hx : containsSub apiApi rest with
          | false => rfl
          | true => exact absurd hx hc
        rw [replFirst_of_not_contains hc']
        simp only [containsSub, Bool.or_eq_false_iff]
        exact ⟨hp', hc'⟩

theorem fixApiApi_no_dup {u : List Char} (h : countOcc apiApi u ≤ 1) :
    containsSub apiApi (fixApiApi u) = false := by
  unfold fixApiApi
  by_cases hc : containsSub apiApi u = true
  · rw [if_pos hc]
    exact replFirst_apiApi_no_dup h
  · rw [if_neg hc]
    cases hx : containsSub apiApi u with
    | false => rfl
    | true => exact absurd hx hc

/-! ### Claim C1 -/

/-- C1 counterexample: the claim asserts that whenever the base URL ends in
`/api` and the endpoint begins with `/api/`, the constructed URL never
contains `/api/api/`.  This fails: with base `https://h/api` and endpoint
`/api/api/api/x`, both side conditions hold, yet the result
(`https://h/api/api/x`) still contains `/api/api/`, because the final
safety check of `constructUrl` replaces only the first occurrence. -/
theorem claim_C1_counterexample :
    endsWithL apiSeg (dropTrailingSlash ("https://h/api".toList)) = true ∧
    hasPre apiSegSlash ("/api/api/api/x".toList) = true ∧
    constructUrl ("https://h/api".toList) ("/api/api/api/x".toList) =
      "https://h/api/api/x".toList ∧
    containsSub apiApi
      (constructUrl ("https://h/api".toList) ("/api/api/api/x".toList)) = true := by
  decide

/-- C1 (amended): when the configured base URL ends with `/api` and the
endpoint begins with `/api/`, the `/api` suffix is stripped from the base
before concatenation, and provided the resulting (slash-collapsed) URL
contains at most one occurrence of `/api/api/` — i.e. the duplication is
not nested deeper, which is the documented bug class — the constructed URL
contains no `/api/api/`; in particular
`constructUrl "https://host/api" "/api/v1/bots/" = "https://host/api/v1/bots/"`
and that result does not contain `/api/api/`. -/
theorem claim_C1_amended (base ep : List Char)
    (hb : endsWithL apiSeg (dropTrailingSlash base) = true)
    (he : hasPre apiSegSlash ep = true)
    (hone : countOcc apiApi (collapseSlashes
        ((dropTrailingSlash base).take ((dropTrailingSlash base).length - 4) ++
          ep)) ≤ 1) :
    containsSub apiApi (constructUrl base ep) = false ∧
    constructUrl ("https://host/api".toList) ("/api/v1/bots/".toList) =
      "https://host/api/v1/bots/".toList := by
  constructor
  · have h2 : hasPre ['/'] ep = true := by
      rw [hasPre_eq_append he]
      rfl
    have hep : cleanEndpointOf ep = ep := by
      unfold cleanEndpointOf
      rw [if_pos h2]
    unfold constructUrl
    rw [hep]
    unfold finalBaseOf
    rw [if_pos ⟨hb, he⟩]
    exact fixApiApi_no_dup hone
  · decide

/-- Witness for `claim_C1_amended` at the concrete inputs named by the
specification. -/
theorem claim_C1_amended_witness :
    endsWithL apiSeg (dropTrailingSlash ("https://host/api".toList)) = true ∧
    hasPre apiSegSlash ("/api/v1/bots/".toList) = true ∧
    countOcc apiApi (collapseSlashes
      ((dropTrailingSlash ("https://host/api".toList)).take
        ((dropTrailingSlash ("https://host/api".toList)).length - 4) ++
        ("/api/v1/bots/".toList))) ≤ 1 ∧
    containsSub apiApi
      (constructUrl ("https://host/api".toList) ("/api/v1/bots/".toList)) =
      false :=
  ⟨by decide, by decide, by decide,
    (claim_C1_amended ("https://host/api".toList) ("/api/v1/bots/".toList)
      (by decide) (by decide) (by decide)).1⟩

/-! ### Data model (`src/types/index.ts`) -/

/-- Bot status enumeration: `'PENDING' | 'STARTED' | 'COMPLETED' | 'FAILED'`. -/
inductive BotStatus where
  | pending
  | started
  | completed
  | failed
deriving DecidableEq, Repr

/-- `MeetingBot` from `src/types/index.ts` (the fields the dashboard logic
reads; `meeting_metadata.bot_name`/`join_at` are flattened, timestamps are
abstract ticks). -/
structure MeetingBot where
  id : Nat
  status : BotStatus
  meeting_url : List Char
  bot_name : List Char
  join_at : Option Nat
  updated_at : Nat
deriving DecidableEq, Repr

/-- Scorecard status union from `src/types/index.ts`:
`'available' | 'processing' | 'unavailable' | 'error' | 'processing_needed' | 'no_data'`. -/
inductive ScStatus where
  | available
  | processing
  | unavailable
  | error
  | processing_needed
  | no_data
deriving DecidableEq, Repr

/-- `ScorecardResponse` (payload abstracted to an identifier; it is only
stored and compared, never inspected, by the dashboard logic). -/
structure ScorecardResponse where
  meeting_id : Nat
  status : ScStatus
  scorecard : Option Nat
deriving DecidableEq, Repr

/-! ### Provider client: `ApiService.makeRequest` (api.ts lines 49–77) -/

/-- Outcome of one `fetch`, as observed by `makeRequest`: a transport
failure (`Except.error` with the fetch exception message) or a `Response`
carrying `ok` and `status`; `errMsg` is the `message` field of the parsed
error body when the body parses and carries one (the code falls back to
`{}` when the error body fails to parse); `body` is the result of
`response.json()` on the success path. -/
structure HttpResponse (α : Type) where
  ok : Bool
  status : Nat
  errMsg : Option (List Char)
  body : Except (List Char) α

/-- The catch-all handler wraps every failure as
`Network error: <message>`. -/
def netErrorWrap (m : List Char) : List Char := "Network error: ".toList ++ m

/-- The generic message built for a non-ok response:
`HTTP error! status: <code>`. -/
def httpStatusMsg (status : Nat) : List Char :=
  "HTTP error! status: ".toList ++ Nat.toDigits 10 status

/-- JS `errorData.message || generic`: the server-provided message is used
only when present and non-empty (an empty string is falsy). -/
def orElseMsg (o : Option (List Char)) (d : List Char) : List Char :=
  match o with
  | some m => if m.isEmpty then d else m
  | none => d

/-- `ApiService.makeRequest`: throws `Error(errorData.message || 'HTTP
error! status: <code>')` on a non-ok response and returns the parsed body
on an ok response.  Note that the entire body runs inside a `try` whose
`catch` re-throws every failure — the non-ok throw included — wrapped as
`Error('Network error: <message>')`. -/
def makeRequest {α : Type} (r : Except (List Char) (HttpResponse α)) :
    Except (List Char) α :=
  match r with
  | .error m => .error (netErrorWrap m)
  | .ok resp =>
    if resp.ok then
      match resp.body with
      | .ok v => .ok v
      | .error m => .error (netErrorWrap m)
    else
      .error (netErrorWrap (orElseMsg resp.errMsg (httpStatusMsg resp.status)))

/-- `ApiService.getBots` (api.ts lines 136–143): wraps `makeRequest` in
`try`/`catch` and returns `[]` on any failure. -/
def getBots (r : Except (List Char) (HttpResponse (List MeetingBot))) :
    List MeetingBot :=
  match makeRequest r with
  | .ok bots => bots
  | .error _ => []

/-! ### Claim C2 -/

/-- C2 counterexample: the claim asserts that for a non-success status with
no server message the rejection message is exactly
`HTTP error! status: <code>`.  It is not: the inner throw is caught by the
function's own `catch` handler and re-wrapped, so for a bare 500 response
the message is `Network error: HTTP error! status: 500`, which differs
from the claimed `HTTP error! status: 500` (though the generic text does
appear inside it). -/
theorem claim_C2_counterexample :
    @makeRequest Nat (.ok ⟨false, 500, none, .error []⟩) =
      .error (netErrorWrap (httpStatusMsg 500)) ∧
    netErrorWrap (httpStatusMsg 500) ≠ ("HTTP error! status: 500").toList ∧
    httpStatusMsg 500 = ("HTTP error! status: 500").toList :=
  ⟨rfl, by decide, by decide⟩

/-- C2 (amended): on a non-success HTTP status, `makeRequest` rejects with
a single normalized `Error` whose message is `Network error: ` prefixed to
the server-provided message when the error body carries a non-empty one,
and otherwise to the generic `HTTP error! status: <code>`; the parsed
response body is returned only on a success status. -/
theorem claim_C2_amended {α : Type} (resp : HttpResponse α)
    (hok : resp.ok = false) :
    makeRequest (.ok resp) =
      .error (netErrorWrap (orElseMsg resp.errMsg (httpStatusMsg resp.status))) ∧
    ∀ (r : Except (List Char) (HttpResponse α)) (v : α),
      makeRequest r = .ok v → ∃ s, r = .ok s ∧ s.ok = true ∧ s.body = .ok v := by
  constructor
  · simp [makeRequest, hok]
  · intro r v h
    match r with
    | .error m => simp [makeRequest] at h
    | .ok s =>
      refine ⟨s, rfl, ?_, ?_⟩
      · cases hs : s.ok with
        | true => rfl
        | false => simp [makeRequest, hs] at h
      · cases hs : s.ok with
        | false => simp [makeRequest, hs] at h
        | true =>
          cases hb : s.body with
          | error m => simp [makeRequest, hs, hb] at h
          | ok w =>
            simp [makeRequest, hs, hb] at h
            rw [h]

/-- Witness for `claim_C2_amended`: a 404 whose error body carries
`message: "Bot not found"`. -/
theorem claim_C2_amended_witness :
    (HttpResponse.ok
      (α := Nat) ⟨false, 404, some ("Bot not found").toList, .error []⟩ : Bool)
      = false ∧
    @makeRequest Nat (.ok ⟨false, 404, some ("Bot not found").toList, .error []⟩) =
      .error (netErrorWrap (orElseMsg (some ("Bot not found").toList)
        (httpStatusMsg 404))) :=
  ⟨rfl, (claim_C2_amended ⟨false, 404, some ("Bot not found").toList, .error []⟩
    rfl).1⟩

/-! ### Claim C10 -/

/-- C10: `getBots` never throws — it is a total function into bot lists —
and on any transport failure or non-success HTTP response it returns `[]`,
so a failed listing is indistinguishable from an account with no bots and
no error reaches the caller. -/
theorem claim_C10_getBots_swallows_errors
    (r : Except (List Char) (HttpResponse (List MeetingBot))) :
    (∀ m, r = .error m → getBots r = []) ∧
    (∀ resp, r = .ok resp → resp.ok = false → getBots r = []) ∧
    (∀ e, makeRequest r = .error e → getBots r = []) := by
  refine ⟨?_, ?_, ?_⟩
  · intro m hm
    rw [hm]
    rfl
  · intro resp hr hok
    rw [hr]
    simp [getBots, makeRequest, hok]
  · intro e he
    simp [getBots, he]

/-- Witness for `claim_C10_getBots_swallows_errors` at a concrete failed
transport. -/
theorem claim_C10_getBots_swallows_errors_witness :
    (Except.error ("fetch failed").toList :
        Except (List Char) (HttpResponse (List MeetingBot))) =
      .error ("fetch failed").toList ∧
    getBots (.error ("fetch failed").toList) = [] :=
  ⟨rfl, (claim_C10_getBots_swallows_errors (.error ("fetch failed").toList)).1
    (("fetch failed").toList) rfl⟩

/-! ### `ApiService.pollForReport` (api.ts lines 100–133)

Delays are modelled in `ℚ`: every value produced by
`delay = Math.min(delay * 1.5, 30000)` starting from 2000 is a dyadic
rational exactly representable in a JS double, so the rational computation
coincides with the float computation of the source. -/

/-- `ReportData` (report entries abstracted to identifiers). -/
structure ReportData where
  status : List Char
  reports : List Nat
deriving DecidableEq, Repr

/-- Observable outcome of one `pollForReport` run: the returned value or
thrown error, the number of `getReport` requests issued, and the sequence
of awaited delays (in milliseconds). -/
structure PollOutcome where
  result : Except (List Char) ReportData
  requests : Nat
  waits : List ℚ

/-- The timeout error message thrown when the attempt budget is spent. -/
def timeoutMsg : List Char := ("Report polling timed out").toList

/-- `true` when attempt `j` of the oracle does not deliver a non-empty
`reports` array (an error, or a report with no entries). -/
def reportEmptyAt (rs : Nat → Except (List Char) ReportData) (j : Nat) : Bool :=
  match rs j with
  | .ok rp => rp.reports.isEmpty
  | .error _ => true

/-- The `while (attempt < maxAttempts)` loop of `pollForReport`, indexed by
the remaining attempts.  `rs` maps the attempt counter to that request's
outcome.  A non-empty `reports` array returns immediately; a `STARTED`
status waits a flat 10 s; otherwise (and on a thrown request) the current
backoff delay is awaited and then grown by 1.5×, capped at 30 s. -/
def pollForReportAux (rs : Nat → Except (List Char) ReportData) :
    Nat → Nat → ℚ → PollOutcome
  | 0, _, _ => ⟨.error timeoutMsg, 0, []⟩
  | remaining + 1, attempt, delay =>
    match rs attempt with
    | .ok report =>
      if 0 < report.reports.length then ⟨.ok report, 1, []⟩
      else if report.status = ("STARTED").toList then
        let rest := pollForReportAux rs remaining (attempt + 1) delay
        ⟨rest.result, rest.requests + 1, 10000 :: rest.waits⟩
      else
        let rest := pollForReportAux rs remaining (attempt + 1)
          (min (delay * 1.5) 30000)
        ⟨rest.result, rest.requests + 1, delay :: rest.waits⟩
    | .error _ =>
      let rest := pollForReportAux rs remaining (attempt + 1)
        (min (delay * 1.5) 30000)
      ⟨rest.result, rest.requests + 1, delay :: rest.waits⟩

/-- `ApiService.pollForReport(meetingId, maxAttempts = 10)`: starts at
attempt 0 with a 2000 ms backoff delay. -/
def pollForReport (rs : Nat → Except (List Char) ReportData)
    (maxAttempts : Nat := 10) : PollOutcome :=
  pollForReportAux rs maxAttempts 0 2000

theorem pollAux_zero (rs : Nat → Except (List Char) ReportData) (att : Nat)
    (d : ℚ) : pollForReportAux rs 0 att d = ⟨.error timeoutMsg, 0, []⟩ := rfl

theorem pollAux_found (rs : Nat → Except (List Char) ReportData) (r att : Nat)
    (d : ℚ) (report : ReportData) (h : rs att = .ok report)
    (hl : 0 < report.reports.length) :
    pollForReportAux rs (r + 1) att d = ⟨.ok report, 1, []⟩ := by
  conv_lhs => unfold pollForReportAux
  rw [h]
  dsimp only
  rw [if_pos hl]

theorem pollAux_started (rs : Nat → Except (List Char) ReportData) (r att : Nat)
    (d : ℚ) (report : ReportData) (h : rs att = .ok report)
    (hl : ¬ 0 < report.reports.length)
    (hst : report.status = ("STARTED").toList) :
    pollForReportAux rs (r + 1) att d =
      ⟨(pollForReportAux rs r (att + 1) d).result,
        (pollForReportAux rs r (att + 1) d).requests + 1,
        10000 :: (pollForReportAux rs r (att + 1) d).waits⟩ := by
  conv_lhs => unfold pollForReportAux
  rw [h]
  dsimp only
  rw [if_neg hl, if_pos hst]

theorem pollAux_backoff (rs : Nat → Except (List Char) ReportData) (r att : Nat)
    (d : ℚ) (report : ReportData) (h : rs att = .ok report)
    (hl : ¬ 0 < report.reports.length)
    (hst : ¬ report.status = ("STARTED").toList) :
    pollForReportAux rs (r + 1) att d =
      ⟨(pollForReportAux rs r (att + 1) (min (d * 1.5) 30000)).result,
        (pollForReportAux rs r (att + 1) (min (d * 1.5) 30000)).requests + 1,
        d :: (pollForReportAux rs r (att + 1) (min (d * 1.5) 30000)).waits⟩ := by
  conv_lhs => unfold pollForReportAux
  rw [h]
  dsimp only
  rw [if_neg hl, if_neg hst]

theorem pollAux_failed (rs : Nat → Except (List Char) ReportData) (r att : Nat)
    (d : ℚ) (e : List Char) (h : rs att = .error e) :
    pollForReportAux rs (r + 1) att d =
      ⟨(pollForReportAux rs r (att + 1) (min (d * 1.5) 30000)).result,
        (pollForReportAux rs r (att + 1) (min (d * 1.5) 30000)).requests + 1,
        d :: (pollForReportAux rs r (att + 1) (min (d * 1.5) 30000)).waits⟩ := by
  conv_lhs => unfold pollForReportAux
  rw [h]

theorem pollAux_requests_le (rs : Nat → Except (List Char) ReportData) :
    ∀ rem att d, (pollForReportAux rs rem att d).requests ≤ rem := by
  intro rem
  induction rem with
  | zero => intro att d; simp [pollAux_zero]
  | succ r ih =>
    intro att d
    cases h : rs att with
    | ok report =>
      by_cases hl : 0 < report.reports.length
      · rw [pollAux_found rs r att d report h hl]
        dsimp only
        omega
      · by_cases hst : report.status = ("STARTED").toList
        · rw [pollAux_started rs r att d report h hl hst]
          dsimp only
          have := ih (att + 1) d
          omega
        · rw [pollAux_backoff rs r att d report h hl hst]
          dsimp only
          have := ih (att + 1) (min (d * 1.5) 30000)
          omega
    | error e =>
      rw [pollAux_failed rs r att d e h]
      dsimp only
      have := ih (att + 1) (min (d * 1.5) 30000)
      omega

theorem pollAux_waits_le (rs : Nat → Except (List Char) ReportData) :
    ∀ rem att d, d ≤ 30000 →
      ∀ w ∈ (pollForReportAux rs rem att d).waits, w ≤ 30000 := by
  intro rem
  induction rem with
  | zero => intro att d _ w hw; simp [pollForReportAux] at hw
  | succ r ih =>
    intro att d hd w hw
    cases h : rs att with
    | ok report =>
      by_cases hl : 0 < report.reports.length
      · rw [pollAux_found rs r att d report h hl] at hw
        simp at hw
      · by_cases hst : report.status = ("STARTED").toList
        · rw [pollAux_started rs r att d report h hl hst] at hw
          simp only [List.mem_cons] at hw
          rcases hw with rfl | hw
          · norm_num
          · exact ih (att + 1) d hd w hw
        · rw [pollAux_backoff rs r att d report h hl hst] at hw
          simp only [List.mem_cons] at hw
          rcases hw with rfl | hw
          · exact hd
          · exact ih (att + 1) (min (d * 1.5) 30000)
              (min_le_right (d * 1.5) 30000) w hw
    | error e =>
      rw [pollAux_failed rs r att d e h] at hw
      simp only [List.mem_cons] at hw
      rcases hw with rfl | hw
      · exact hd
      · exact ih (att + 1) (min (d * 1.5) 30000)
          (min_le_right (d * 1.5) 30000) w hw

theorem pollAux_ok (rs : Nat → Except (List Char) ReportData) :
    ∀ rem att d rep, (pollForReportAux rs rem att d).result = .ok rep →
      rep.reports ≠ [] ∧ ∃ k, att ≤ k ∧ k < att + rem ∧ rs k = .ok rep ∧
        ∀ j, att ≤ j → j < k → reportEmptyAt rs j = true := by
  intro rem
  induction rem with
  | zero => intro att d rep h; simp [pollForReportAux, timeoutMsg] at h
  | succ r ih =>
    intro att d rep h
    cases hr : rs att with
    | ok report =>
      by_cases hl : 0 < report.reports.length
      · rw [pollAux_found rs r att d report hr hl] at h
        simp only [Except.ok.injEq] at h
        subst h
        refine ⟨by intro hnil; rw [hnil] at hl; simp at hl,
          att, le_refl att, by omega, hr, ?_⟩
        intro j hj1 hj2
        omega
      · have hempty : reportEmptyAt rs att = true := by
          unfold reportEmptyAt
          rw [hr]
          simpa using List.eq_nil_of_length_eq_zero (by omega)
        by_cases hst : report.status = ("STARTED").toList
        · rw [pollAux_started rs r att d report hr hl hst] at h
          obtain ⟨hnil, k, hk1, hk2, hk3, hk4⟩ := ih (att + 1) d rep h
          refine ⟨hnil, k, by omega, by omega, hk3, ?_⟩
          intro j hj1 hj2
          rcases Nat.eq_or_lt_of_le hj1 with rfl | hj1'
          · exact hempty
          · exact hk4 j hj1' hj2
        · rw [pollAux_backoff rs r att d report hr hl hst] at h
          obtain ⟨hnil, k, hk1, hk2, hk3, hk4⟩ :=
            ih (att + 1) (min (d * 1.5) 30000) rep h
          refine ⟨hnil, k, by omega, by omega, hk3, ?_⟩
          intro j hj1 hj2
          rcases Nat.eq_or_lt_of_le hj1 with rfl | hj1'
          · exact hempty
          · exact hk4 j hj1' hj2
    | error e =>
      rw [pollAux_failed rs r att d e hr] at h
      obtain ⟨hnil, k, hk1, hk2, hk3, hk4⟩ :=
        ih (att + 1) (min (d * 1.5) 30000) rep h
      refine ⟨hnil, k, by omega, by omega, hk3, ?_⟩
      intro j hj1 hj2
      rcases Nat.eq_or_lt_of_le hj1 with rfl | hj1'
      · unfold reportEmptyAt
        rw [hr]
      · exact hk4 j hj1' hj2

theorem pollAux_timeout (rs : Nat → Except (List Char) ReportData) :
    ∀ rem att d, (∀ k, att ≤ k → k < att + rem → reportEmptyAt rs k = true) →
      (pollForReportAux rs rem att d).result = .error timeoutMsg := by
  intro rem
  induction rem with
  | zero => intro att d _; rfl
  | succ r ih =>
    intro att d hall
    cases hr : rs att with
    | ok report =>
      have hempty := hall att (le_refl att) (by omega)
      unfold reportEmptyAt at hempty
      rw [hr] at hempty
      have hl : ¬ 0 < report.reports.length := by
        rw [List.isEmpty_iff] at hempty
        rw [hempty]
        simp
      by_cases hst : report.status = ("STARTED").toList
      · rw [pollAux_started rs r att d report hr hl hst]
        exact ih (att + 1) d (by intro k h1 h2; exact hall k (by omega) (by omega))
      · rw [pollAux_backoff rs r att d report hr hl hst]
        exact ih (att + 1) (min (d * 1.5) 30000)
          (by intro k h1 h2; exact hall k (by omega) (by omega))
    | error e =>
      rw [pollAux_failed rs r att d e hr]
      exact ih (att + 1) (min (d * 1.5) 30000)
        (by intro k h1 h2; exact hall k (by omega) (by omega))

/-! ### Claim C7 -/

/-- C7: `pollForReport` has a bounded retry budget: it issues at most
`maxAttempts` (default 10) report requests; every awaited delay is at most
30000 ms (the backoff grows by 1.5× per non-`STARTED` miss but is capped
by `Math.min` at 30000, and the flat `STARTED` wait is 10000); it returns
the first response whose `reports` array is non-empty; and when no attempt
within the budget yields one it throws `Report polling timed out`. -/
theorem claim_C7_pollForReport (rs : Nat → Except (List Char) ReportData)
    (n : Nat) :
    (pollForReport rs n).requests ≤ n ∧
    (∀ w ∈ (pollForReport rs n).waits, w ≤ 30000) ∧
    (∀ rep, (pollForReport rs n).result = .ok rep →
      rep.reports ≠ [] ∧ ∃ k, k < n ∧ rs k = .ok rep ∧
        ∀ j, j < k → reportEmptyAt rs j = true) ∧
    ((∀ k, k < n → reportEmptyAt rs k = true) →
      (pollForReport rs n).result = .error timeoutMsg) ∧
    pollForReport rs = pollForReport rs 10 := by
  refine ⟨pollAux_requests_le rs n 0 2000,
    pollAux_waits_le rs n 0 2000 (by norm_num), ?_, ?_, rfl⟩
  · intro rep h
    obtain ⟨hnil, k, _, hk2, hk3, hk4⟩ := pollAux_ok rs n 0 2000 rep h
    exact ⟨hnil, k, by omega, hk3, fun j hj => hk4 j (Nat.zero_le j) hj⟩
  · intro hall
    exact pollAux_timeout rs n 0 2000
      (fun k _ h2 => hall k (by omega))

/-- Witness for `claim_C7_pollForReport`: an oracle that always answers
with an empty `PENDING` report exhausts the default budget of 10 and times
out. -/
theorem claim_C7_pollForReport_witness :
    (pollForReport (fun _ => .ok ⟨("PENDING").toList, []⟩) 10).requests ≤ 10 ∧
    (∀ k, k < 10 →
      reportEmptyAt (fun _ => .ok ⟨("PENDING").toList, []⟩) k = true) ∧
    (pollForReport (fun _ => .ok ⟨("PENDING").toList, []⟩) 10).result =
      .error timeoutMsg :=
  ⟨(claim_C7_pollForReport (fun _ => .ok ⟨("PENDING").toList, []⟩) 10).1,
    by decide,
    (claim_C7_pollForReport
      (fun _ => .ok ⟨("PENDING").toList, []⟩) 10).2.2.2.1 (by decide)⟩

/-! ### App state (`src/App.tsx`, canonical revision, lines 243–731)

The React component state, the refs (`pollingIntervals`, `isMounted`,
`fetchInProgress`), the browser timer population and `localStorage` are
modelled as one record.  Network calls appear as explicit
request/response oracles on the events.  The `statusReqLog`,
`scorecardReqLog` and `scorecardFetchLog` fields are instrumentation
recording, respectively, every `pollBotStatus` request issued, every
`getMeetingScorecard` request issued, and every hand-off to the scorecard
fetcher scheduled by the poller on `COMPLETED`; `usedIds` records every
provider-assigned bot id ever returned by `createBot` (provider ids are
unique, which the creation step's freshness guard reflects). -/

/-- `MeetingConfig` from `src/types/index.ts`. -/
structure MeetingConfig where
  meeting_url : List Char
  bot_name : List Char
  join_at : Option Nat
deriving DecidableEq, Repr

/-- The cleared configuration `{ meeting_url: '', bot_name: '', join_at: undefined }`. -/
def emptyConfig : MeetingConfig := ⟨[], [], none⟩

/-- Response of `POST /api/v1/bots/{id}/poll-status`:
`{status_updated, new_status}`. -/
structure PollStatusResult where
  status_updated : Bool
  new_status : BotStatus
deriving DecidableEq, Repr

/-- The dashboard's client-side state. `liveTimers` is the set of
`setInterval` handles not yet cleared, as `(timerId, botId)` pairs;
`pollingIntervals` is the `useRef` map from bot id to interval handle;
`retryTimers` are the pending scorecard retry `setTimeout`s as
`(meetingId, delayMs)` pairs; `nextTimer` generates fresh timer handles. -/
structure AppState where
  bots : List MeetingBot
  scorecardCache : List (Nat × ScorecardResponse)
  pollingIntervals : List (Nat × Nat)
  liveTimers : List (Nat × Nat)
  retryTimers : List (Nat × Nat)
  nextTimer : Nat
  selectedBotId : Option Nat
  storedBotId : Option Nat
  config : MeetingConfig
  isMounted : Bool
  fetchInProgress : List Nat
  errorMsg : Option (List Char)
  alerts : List (List Char)
  statusReqLog : List Nat
  scorecardReqLog : List Nat
  scorecardFetchLog : List Nat
  usedIds : List Nat
deriving DecidableEq, Repr

/-- Association-list lookup modelling `Map.get`. -/
def alookup {α : Type} (k : Nat) : List (Nat × α) → Option α
  | [] => none
  | (k', v) :: rest => if k' = k then some v else alookup k rest

/-- `Map.delete`. -/
def aerase {α : Type} (k : Nat) : List (Nat × α) → List (Nat × α)
  | [] => []
  | p :: rest => if p.1 = k then aerase k rest else p :: aerase k rest

/-- `Map.set` (keyed lookup semantics; entry order is irrelevant here). -/
def aset {α : Type} (k : Nat) (v : α) (l : List (Nat × α)) : List (Nat × α) :=
  (k, v) :: aerase k l

/-- The ids present in the bot registry. -/
def botIds (s : AppState) : List Nat := s.bots.map (·.id)

/-- Boolean membership in a list of numbers (JS `Set.has` / array search). -/
def natElem (n : Nat) : List Nat → Bool
  | [] => false
  | m :: rest => m == n || natElem n rest

/-- `cleanupPolling(botId)` (App.tsx lines 287–299, branch with an id):
looks up the interval handle for `botId`, clears that interval and deletes
the map entry; a no-op when no handle is registered. -/
def cleanupOne (botId : Nat) (s : AppState) : AppState :=
  match alookup botId s.pollingIntervals with
  | some t =>
    { s with
      liveTimers := s.liveTimers.filter (fun p => p.1 ≠ t),
      pollingIntervals := aerase botId s.pollingIntervals }
  | none => s

/-- `cleanupPolling()` (no id): clears every interval registered in the
map and empties the map. -/
def cleanupAll (s : AppState) : AppState :=
  { s with
    liveTimers := s.liveTimers.filter
      (fun p => !natElem p.1 (s.pollingIntervals.map (·.2))),
    pollingIntervals := [] }

/-- `startStatusPolling(botId)` (App.tsx lines 348–397): first clears any
existing interval for this bot, then registers a fresh interval for it. -/
def startStatusPolling (botId : Nat) (s : AppState) : AppState :=
  let s1 := cleanupOne botId s
  { s1 with
    liveTimers := (s1.nextTimer, botId) :: s1.liveTimers,
    pollingIntervals := aset botId s1.nextTimer s1.pollingIntervals,
    nextTimer := s1.nextTimer + 1 }

/-- The `setBots(prev => prev.map(...))` status update: rewrites the
status and `updated_at` of the bot with the given id, leaving every other
record — and a registry without that id — unchanged. -/
def updateBotStatus (botId : Nat) (st : BotStatus) (now : Nat)
    (bots : List MeetingBot) : List MeetingBot :=
  bots.map (fun bot =>
    if bot.id = botId then { bot with status := st, updated_at := now } else bot)

/-- One firing of the `setInterval` callback registered by
`startStatusPolling` for `botId` (App.tsx lines 352–394).  `resp` is the
outcome of `apiService.pollBotStatus(botId)` (`none` = the request threw;
errors are swallowed).  The callback returns immediately when unmounted;
otherwise it issues the status request, and on `status_updated` rewrites
the bot's record; on `COMPLETED` it cancels this bot's interval and
schedules the analysis-plus-scorecard hand-off; on `FAILED` it only
cancels the interval.  Note: there is no registry-membership check. -/
def pollTick (botId : Nat) (resp : Option PollStatusResult) (now : Nat)
    (s : AppState) : AppState :=
  if s.isMounted = false then s
  else
    let s0 := { s with statusReqLog := botId :: s.statusReqLog }
    match resp with
    | none => s0
    | some r =>
      if r.status_updated then
        let s1 := { s0 with bots := updateBotStatus botId r.new_status now s0.bots }
        if r.new_status = .completed then
          let s2 := cleanupOne botId s1
          { s2 with scorecardFetchLog := botId :: s2.scorecardFetchLog }
        else if r.new_status = .failed then
          cleanupOne botId s1
        else s1
      else s0

/-- One completed call of `fetchScorecardData(meetingId)` (App.tsx lines
302–345).  `resp` is the outcome of
`apiService.getMeetingScorecard(meetingId)`.  A call for an id already in
`fetchInProgress` returns without issuing a request.  Otherwise the id is
marked in-flight, the request issued, every received response cached under
`meetingId` (last write wins), and — only when the response status is
`processing` — exactly one retry is scheduled after the fixed 5000 ms
delay.  A failure stores the error message when the meeting is the
selected one.  The in-flight mark is removed in `finally`. -/
def fetchScorecardData (meetingId : Nat)
    (resp : Except (List Char) ScorecardResponse) (s : AppState) : AppState :=
  if natElem meetingId s.fetchInProgress then s
  else
    let s0 := { s with
      fetchInProgress := meetingId :: s.fetchInProgress,
      scorecardReqLog := meetingId :: s.scorecardReqLog,
      errorMsg := if s.selectedBotId = some meetingId then none else s.errorMsg }
    let s1 :=
      match resp with
      | .ok data =>
        let s2 := { s0 with scorecardCache := aset meetingId data s0.scorecardCache }
        if data.status = ScStatus.processing then
          { s2 with retryTimers := (meetingId, 5000) :: s2.retryTimers }
        else s2
      | .error m =>
        if s0.selectedBotId = some meetingId then { s0 with errorMsg := some m }
        else s0
    { s1 with fetchInProgress := s1.fetchInProgress.erase meetingId }

/-- One firing of the 5-second retry `setTimeout` scheduled by
`fetchScorecardData`: the timeout is consumed, and the re-fetch runs only
if the component is still mounted. -/
def retryFire (meetingId : Nat)
    (resp : Except (List Char) ScorecardResponse) (s : AppState) : AppState :=
  let s0 := { s with retryTimers := s.retryTimers.erase (meetingId, 5000) }
  if s0.isMounted then fetchScorecardData meetingId resp s0 else s0

/-- The alert text `Failed to delete bot: <message>`. -/
def deleteFailAlert (m : List Char) : List Char :=
  ("Failed to delete bot: ").toList ++ m

/-- `handleDeleteBot(botId)` (App.tsx lines 504–531).  `result` is the
outcome of `apiService.deleteBot(botId)`.  On success: cancel this bot's
polling, purge its scorecard cache entry, remove it from the registry,
and clear the selection (state, `localStorage` and form) if it was
selected.  On failure: only an alert is raised. -/
def handleDeleteBot (botId : Nat) (result : Except (List Char) Unit)
    (s : AppState) : AppState :=
  match result with
  | .ok _ =>
    let s1 := cleanupOne botId s
    let s2 := { s1 with
      scorecardCache := aerase botId s1.scorecardCache,
      bots := s1.bots.filter (fun bot => bot.id ≠ botId) }
    if s2.selectedBotId = some botId then
      { s2 with selectedBotId := none, storedBotId := none, config := emptyConfig }
    else s2
  | .error m => { s with alerts := deleteFailAlert m :: s.alerts }

/-- The registry part of a successful `handleConfigSubmit` (App.tsx lines
440–475): the newly created bot is prepended and selected (and its
provider-assigned id recorded as used). -/
def createBotSuccess (bot : MeetingBot) (s : AppState) : AppState :=
  { s with
    bots := bot :: s.bots,
    selectedBotId := some bot.id,
    storedBotId := some bot.id,
    usedIds := bot.id :: s.usedIds }

/-- The synchronous part of `handleBotSelect` (App.tsx lines 478–501):
select, persist the selection, and load the found bot's configuration. -/
def handleBotSelect (botId : Nat) (s : AppState) : AppState :=
  let s0 := { s with selectedBotId := some botId, storedBotId := some botId }
  match s0.bots.find? (fun b => b.id = botId) with
  | some bot => { s0 with config := ⟨bot.meeting_url, bot.bot_name, bot.join_at⟩ }
  | none => s0

/-- Component teardown (App.tsx lines 593–598): drop the liveness flag and
clear every registered interval. -/
def unmountApp (s : AppState) : AppState :=
  cleanupAll { s with isMounted := false }

/-- The initial component state. -/
def initState : AppState where
  bots := []
  scorecardCache := []
  pollingIntervals := []
  liveTimers := []
  retryTimers := []
  nextTimer := 0
  selectedBotId := none
  storedBotId := none
  config := emptyConfig
  isMounted := true
  fetchInProgress := []
  errorMsg := none
  alerts := []
  statusReqLog := []
  scorecardReqLog := []
  scorecardFetchLog := []
  usedIds := []

/-- The event alphabet of the app's event loop.  Response data carried by
an event is the network oracle for the call that the handler makes. -/
inductive AppEvent where
  | create (bot : MeetingBot)
  | startPoll (botId : Nat)
  | tick (timerId botId : Nat) (resp : Option PollStatusResult) (now : Nat)
  | deleteBot (botId : Nat) (result : Except (List Char) Unit)
  | fetchScorecard (meetingId : Nat) (resp : Except (List Char) ScorecardResponse)
  | retry (meetingId : Nat) (resp : Except (List Char) ScorecardResponse)
  | selectBot (botId : Nat)
  | unmount

/-- Small-step semantics of the event loop.  A tick can only fire for an
interval that is still live; a retry only for a pending timeout; polling
is only started for ids present in the registry (every caller of
`startStatusPolling` in App.tsx passes an id of a bot it just found or
inserted); bot creation yields a fresh provider id. -/
inductive Step : AppState → AppEvent → AppState → Prop where
  | create (s : AppState) (bot : MeetingBot) (h : bot.id ∉ s.usedIds) :
      Step s (.create bot) (createBotSuccess bot s)
  | startPoll (s : AppState) (botId : Nat) (h : botId ∈ botIds s) :
      Step s (.startPoll botId) (startStatusPolling botId s)
  | tick (s : AppState) (timerId botId : Nat) (resp : Option PollStatusResult)
      (now : Nat) (h : (timerId, botId) ∈ s.liveTimers) :
      Step s (.tick timerId botId resp now) (pollTick botId resp now s)
  | deleteBot (s : AppState) (botId : Nat) (result : Except (List Char) Unit) :
      Step s (.deleteBot botId result) (handleDeleteBot botId result s)
  | fetchScorecard (s : AppState) (meetingId : Nat)
      (resp : Except (List Char) ScorecardResponse) :
      Step s (.fetchScorecard meetingId resp) (fetchScorecardData meetingId resp s)
  | retry (s : AppState) (meetingId : Nat)
      (resp : Except (List Char) ScorecardResponse)
      (h : (meetingId, 5000) ∈ s.retryTimers) :
      Step s (.retry meetingId resp) (retryFire meetingId resp s)
  | selectBot (s : AppState) (botId : Nat) (h : botId ∈ botIds s) :
      Step s (.selectBot botId) (handleBotSelect botId s)
  | unmount (s : AppState) : Step s .unmount (unmountApp s)

/-- Zero or more steps. -/
inductive Reach : AppState → AppState → Prop where
  | refl (s : AppState) : Reach s s
  | tail {s₁ s₂ s₃ : AppState} (h : Reach s₁ s₂) (e : AppEvent)
      (hs : Step s₂ e s₃) : Reach s₁ s₃

/-- States reachable from the freshly mounted component. -/
def Reachable (s : AppState) : Prop := Reach initState s

/-! ### Association list lemmas -/

theorem alookup_mem {α : Type} {k : Nat} {v : α} {l : List (Nat × α)}
    (h : alookup k l = some v) : (k, v) ∈ l := by
  induction l with
  | nil => simp [alookup] at h
  | cons p rest ih =>
    obtain ⟨k', v'⟩ := p
    simp only [alookup] at h
    by_cases hk : k' = k
    · rw [if_pos hk] at h
      injection h with h'
      subst hk
      subst h'
      exact List.mem_cons_self _ _
    · rw [if_neg hk] at h
      exact List.mem_cons_of_mem _ (ih h)

theorem alookup_val_mem {α : Type} {k : Nat} {v : α} {l : List (Nat × α)}
    (h : alookup k l = some v) : v ∈ l.map (·.2) :=
  List.mem_map.mpr ⟨(k, v), alookup_mem h, rfl⟩

theorem alookup_aerase_self {α : Type} (k : Nat) (l : List (Nat × α)) :
    alookup k (aerase k l) = none := by
  induction l with
  | nil => rfl
  | cons p rest ih =>
    obtain ⟨k', v'⟩ := p
    simp only [aerase]
    by_cases hk : k' = k
    · rw [if_pos hk]
      exact ih
    · rw [if_neg hk]
      simp only [alookup, if_neg hk]
      exact ih

theorem alookup_aerase_ne {α : Type} {j k : Nat} (hjk : j ≠ k)
    (l : List (Nat × α)) : alookup j (aerase k l) = alookup j l := by
  induction l with
  | nil => rfl
  | cons p rest ih =>
    obtain ⟨k', v'⟩ := p
    simp only [aerase]
    by_cases hk : k' = k
    · have hkj : ¬ k' = j := by rw [hk]; exact fun he => hjk he.symm
      rw [if_pos hk]
      simp only [alookup, if_neg hkj]
      exact ih
    · rw [if_neg hk]
      simp only [alookup]
      by_cases hkj : k' = j
      · rw [if_pos hkj, if_pos hkj]
      · rw [if_neg hkj, if_neg hkj]
        exact ih

theorem alookup_aset_self {α : Type} (k : Nat) (v : α) (l : List (Nat × α)) :
    alookup k (aset k v l) = some v := by
  simp [aset, alookup]

theorem alookup_aset_ne {α : Type} {j k : Nat} (hjk : j ≠ k) (v : α)
    (l : List (Nat × α)) : alookup j (aset k v l) = alookup j l := by
  have hk : ¬ k = j := fun he => hjk he.symm
  simp only [aset, alookup]
  rw [if_neg hk]
  exact alookup_aerase_ne hjk l

theorem natElem_mem {n : Nat} {l : List Nat} (h : n ∈ l) :
    natElem n l = true := by
  induction l with
  | nil => cases h
  | cons m rest ih =>
    simp only [natElem, Bool.or_eq_true, beq_iff_eq]
    rcases List.mem_cons.mp h with rfl | h'
    · exact Or.inl rfl
    · exact Or.inr (ih h')

theorem natElem_not_mem {n : Nat} {l : List Nat} (h : n ∉ l) :
    natElem n l = false := by
  induction l with
  | nil => rfl
  | cons m rest ih =>
    simp only [natElem, Bool.or_eq_false_iff, beq_eq_false_iff_ne]
    refine ⟨fun he => h (he ▸ List.mem_cons_self m rest), ?_⟩
    exact ih (fun h' => h (List.mem_cons_of_mem m h'))

/-! ### The timer invariant -/

/-- The structural invariant tying the interval-handle map to the live
interval population: an interval is live exactly when the map records it
for its bot (so each bot has at most one live poller); live handles are
below the fresh-handle counter; live handles are pairwise distinct; and
every registry id was provider-issued. -/
def TimersInv (s : AppState) : Prop :=
  (∀ t b, ((t, b) ∈ s.liveTimers ↔ alookup b s.pollingIntervals = some t)) ∧
  (∀ t b, (t, b) ∈ s.liveTimers → t < s.nextTimer) ∧
  s.liveTimers.Pairwise (fun p q => p.1 ≠ q.1) ∧
  (∀ i ∈ botIds s, i ∈ s.usedIds)

theorem cleanupOne_inv {s : AppState} (h : TimersInv s) (b : Nat) :
    TimersInv (cleanupOne b s) := by
  obtain ⟨hiff, hfresh, hpair, hused⟩ := h
  cases hl : alookup b s.pollingIntervals with
  | none =>
    unfold cleanupOne
    rw [hl]
    exact ⟨hiff, hfresh, hpair, hused⟩
  | some t0 =>
    unfold cleanupOne
    rw [hl]
    refine ⟨?_, ?_, ?_, hused⟩
    · intro t c
      constructor
      · intro hmem
        rw [List.mem_filter] at hmem
        obtain ⟨h1, h2⟩ := hmem
        have ht0 : t ≠ t0 := by simpa using h2
        have hmap := (hiff t c).mp h1
        have hcb : c ≠ b := by
          intro he
          subst he
          rw [hl] at hmap
          injection hmap with hv
          exact ht0 hv.symm
        show alookup c (aerase b s.pollingIntervals) = some t
        rw [alookup_aerase_ne hcb]
        exact hmap
      · intro hmap'
        have hcb : c ≠ b := by
          intro he
          subst he
          rw [show alookup c (aerase c s.pollingIntervals) = none from
            alookup_aerase_self c s.pollingIntervals] at hmap'
          cases hmap'
        rw [alookup_aerase_ne hcb] at hmap'
        have hmem := (hiff t c).mpr hmap'
        have ht0 : t ≠ t0 := by
          intro he
          subst he
          have hb0 := (hiff t b).mpr hl
          have hne : ((t, c) : Nat × Nat) ≠ (t, b) :=
            fun he => hcb (congrArg Prod.snd he)
          have hsym : Symmetric (fun p q : Nat × Nat => p.1 ≠ q.1) :=
            fun _ _ hpq => Ne.symm hpq
          exact List.Pairwise.forall hsym hpair hmem hb0 hne rfl
        rw [List.mem_filter]
        exact ⟨hmem, by simpa using ht0⟩
    · intro t c hmem
      rw [List.mem_filter] at hmem
      exact hfresh t c hmem.1
    · exact List.Pairwise.sublist (List.filter_sublist _) hpair

theorem cleanupAll_live {s : AppState} (h : TimersInv s) :
    ∀ p, p ∉ (cleanupAll s).liveTimers := by
  intro p hp
  obtain ⟨hiff, _, _, _⟩ := h
  unfold cleanupAll at hp
  simp only [List.mem_filter] at hp
  obtain ⟨h1, h2⟩ := hp
  obtain ⟨t, b⟩ := p
  have hmap := (hiff t b).mp h1
  have hval : t ∈ s.pollingIntervals.map (·.2) := alookup_val_mem hmap
  rw [natElem_mem hval] at h2
  cases h2

theorem cleanupAll_inv {s : AppState} (h : TimersInv s) :
    TimersInv (cleanupAll s) := by
  refine ⟨?_, ?_, ?_, h.2.2.2⟩
  · intro t c
    constructor
    · intro hmem
      exact absurd hmem (cleanupAll_live h (t, c))
    · intro hmap
      cases hmap
  · intro t c hmem
    exact absurd hmem (cleanupAll_live h (t, c))
  · show List.Pairwise _ (List.filter _ s.liveTimers)
    exact List.Pairwise.sublist (List.filter_sublist _) h.2.2.1

theorem cleanupOne_lookup_self (s : AppState) (b : Nat) :
    alookup b (cleanupOne b s).pollingIntervals = none := by
  unfold cleanupOne
  cases hl : alookup b s.pollingIntervals with
  | none => exact hl
  | some t0 => exact alookup_aerase_self b s.pollingIntervals

theorem cleanupOne_fields (b : Nat) (s : AppState) :
    (cleanupOne b s).nextTimer = s.nextTimer ∧
    (cleanupOne b s).bots = s.bots ∧
    (cleanupOne b s).usedIds = s.usedIds ∧
    (cleanupOne b s).scorecardFetchLog = s.scorecardFetchLog ∧
    (cleanupOne b s).statusReqLog = s.statusReqLog ∧
    (cleanupOne b s).scorecardCache = s.scorecardCache ∧
    (cleanupOne b s).retryTimers = s.retryTimers ∧
    (cleanupOne b s).isMounted = s.isMounted := by
  unfold cleanupOne
  cases alookup b s.pollingIntervals with
  | none => exact ⟨rfl, rfl, rfl, rfl, rfl, rfl, rfl, rfl⟩
  | some t0 => exact ⟨rfl, rfl, rfl, rfl, rfl, rfl, rfl, rfl⟩

theorem cleanupOne_live_sub {p : Nat × Nat} {b : Nat} {s : AppState}
    (h : p ∈ (cleanupOne b s).liveTimers) : p ∈ s.liveTimers := by
  unfold cleanupOne at h
  cases hl : alookup b s.pollingIntervals with
  | none =>
    rw [hl] at h
    exact h
  | some t0 =>
    rw [hl] at h
    exact (List.mem_filter.mp h).1

theorem cleanupOne_no_self {s : AppState} (h : TimersInv s) (b t : Nat) :
    (t, b) ∉ (cleanupOne b s).liveTimers := by
  intro hmem
  have hiff := (cleanupOne_inv h b).1
  have := (hiff t b).mp hmem
  rw [cleanupOne_lookup_self s b] at this
  cases this

theorem startStatusPolling_inv {s : AppState} (h : TimersInv s) (b : Nat) :
    TimersInv (startStatusPolling b s) := by
  obtain ⟨hiff, hfresh, hpair, hused⟩ := cleanupOne_inv h b
  have hnone := cleanupOne_lookup_self s b
  unfold startStatusPolling
  dsimp only
  refine ⟨?_, ?_, ?_, ?_⟩
  · intro t c
    by_cases hc : c = b
    · subst hc
      rw [show alookup c (aset c (cleanupOne c s).nextTimer
          (cleanupOne c s).pollingIntervals) =
          some (cleanupOne c s).nextTimer from alookup_aset_self _ _ _]
      constructor
      · intro hmem
        rcases List.mem_cons.mp hmem with he | hmem'
        · have he1 : t = (cleanupOne c s).nextTimer := congrArg Prod.fst he
          rw [he1]
        · have := (hiff t c).mp hmem'
          rw [hnone] at this
          cases this
      · intro he
        injection he with he'
        rw [← he']
        exact List.mem_cons_self _ _
    · rw [alookup_aset_ne hc]
      constructor
      · intro hmem
        rcases List.mem_cons.mp hmem with he | hmem'
        · exact absurd (congrArg Prod.snd he) hc
        · exact (hiff t c).mp hmem'
      · intro h'
        exact List.mem_cons_of_mem _ ((hiff t c).mpr h')
  · intro t c hmem
    show t < (cleanupOne b s).nextTimer + 1
    rcases List.mem_cons.mp hmem with he | hmem'
    · have he1 : t = (cleanupOne b s).nextTimer := congrArg Prod.fst he
      omega
    · have := hfresh t c hmem'
      omega
  · refine List.pairwise_cons.mpr ⟨?_, hpair⟩
    intro q hq
    have := hfresh q.1 q.2 (by simpa using hq)
    show (cleanupOne b s).nextTimer ≠ q.1
    omega
  · exact hused

theorem updateBotStatus_ids (b : Nat) (st : BotStatus) (now : Nat)
    (bots : List MeetingBot) :
    (updateBotStatus b st now bots).map (·.id) = bots.map (·.id) := by
  unfold updateBotStatus
  rw [List.map_map]
  apply List.map_congr_left
  intro bot _
  by_cases hb : bot.id = b
  · simp [hb]
  · simp [hb]

theorem pollTick_inv {s : AppState} (h : TimersInv s) (b : Nat)
    (resp : Option PollStatusResult) (now : Nat) :
    TimersInv (pollTick b resp now s) := by
  unfold pollTick
  by_cases hm : s.isMounted = false
  · rw [if_pos hm]
    exact h
  · rw [if_neg hm]
    dsimp only
    cases resp with
    | none => exact ⟨h.1, h.2.1, h.2.2.1, h.2.2.2⟩
    | some r =>
      dsimp only
      by_cases hu : r.status_updated = true
      · rw [if_pos hu]
        have hbase : TimersInv
            { s with
              statusReqLog := b :: s.statusReqLog,
              bots := updateBotStatus b r.new_status now s.bots } := by
          refine ⟨h.1, h.2.1, h.2.2.1, ?_⟩
          intro i hi
          apply h.2.2.2
          show i ∈ botIds s
          unfold botIds at hi ⊢
          rw [show ({ s with
              statusReqLog := b :: s.statusReqLog,
              bots := updateBotStatus b r.new_status now s.bots } :
              AppState).bots = updateBotStatus b r.new_status now s.bots
            from rfl, updateBotStatus_ids] at hi
          exact hi
        by_cases hcomp : r.new_status = BotStatus.completed
        · rw [if_pos hcomp]
          have hc := cleanupOne_inv hbase b
          exact ⟨hc.1, hc.2.1, hc.2.2.1, hc.2.2.2⟩
        · rw [if_neg hcomp]
          by_cases hfail : r.new_status = BotStatus.failed
          · rw [if_pos hfail]
            exact cleanupOne_inv hbase b
          · rw [if_neg hfail]
            exact hbase
      · rw [if_neg hu]
        exact ⟨h.1, h.2.1, h.2.2.1, h.2.2.2⟩

theorem handleDeleteBot_inv {s : AppState} (h : TimersInv s) (b : Nat)
    (result : Except (List Char) Unit) :
    TimersInv (handleDeleteBot b result s) := by
  unfold handleDeleteBot
  cases result with
  | error m => exact ⟨h.1, h.2.1, h.2.2.1, h.2.2.2⟩
  | ok u =>
    obtain ⟨hiff, hfresh, hpair, hused⟩ := cleanupOne_inv h b
    have hmid : TimersInv
        { cleanupOne b s with
          scorecardCache := aerase b (cleanupOne b s).scorecardCache,
          bots := (cleanupOne b s).bots.filter (fun bot => bot.id ≠ b) } := by
      refine ⟨hiff, hfresh, hpair, ?_⟩
      intro i hi
      apply hused
      unfold botIds at hi ⊢
      simp only [List.mem_map] at hi ⊢
      obtain ⟨bot, hbot, hid⟩ := hi
      exact ⟨bot, (List.mem_filter.mp hbot).1, hid⟩
    by_cases hsel : ({ cleanupOne b s with
        scorecardCache := aerase b (cleanupOne b s).scorecardCache,
        bots := (cleanupOne b s).bots.filter (fun bot => bot.id ≠ b)} :
        AppState).selectedBotId = some b
    · rw [if_pos hsel]
      exact ⟨hmid.1, hmid.2.1, hmid.2.2.1, hmid.2.2.2⟩
    · rw [if_neg hsel]
      exact hmid

theorem fetchSc_fields (m : Nat) (r : Except (List Char) ScorecardResponse)
    (s : AppState) :
    (fetchScorecardData m r s).liveTimers = s.liveTimers ∧
    (fetchScorecardData m r s).pollingIntervals = s.pollingIntervals ∧
    (fetchScorecardData m r s).nextTimer = s.nextTimer ∧
    (fetchScorecardData m r s).bots = s.bots ∧
    (fetchScorecardData m r s).usedIds = s.usedIds ∧
    (fetchScorecardData m r s).statusReqLog = s.statusReqLog ∧
    (fetchScorecardData m r s).isMounted = s.isMounted := by
  unfold fetchScorecardData
  by_cases hc : natElem m s.fetchInProgress = true
  · rw [if_pos hc]
    exact ⟨rfl, rfl, rfl, rfl, rfl, rfl, rfl⟩
  · rw [if_neg hc]
    dsimp only
    cases r with
    | ok data =>
      dsimp only
      by_cases hp : data.status = ScStatus.processing
      · rw [if_pos hp]
        exact ⟨rfl, rfl, rfl, rfl, rfl, rfl, rfl⟩
      · rw [if_neg hp]
        exact ⟨rfl, rfl, rfl, rfl, rfl, rfl, rfl⟩
    | error msg =>
      dsimp only
      by_cases hsel : s.selectedBotId = some m
      · rw [if_pos hsel]
        exact ⟨rfl, rfl, rfl, rfl, rfl, rfl, rfl⟩
      · rw [if_neg hsel]
        exact ⟨rfl, rfl, rfl, rfl, rfl, rfl, rfl⟩

theorem fetchSc_inv {s : AppState} (h : TimersInv s) (m : Nat)
    (r : Except (List Char) ScorecardResponse) :
    TimersInv (fetchScorecardData m r s) := by
  obtain ⟨hl, hp, hn, hb, hu, _, _⟩ := fetchSc_fields m r s
  refine ⟨?_, ?_, ?_, ?_⟩
  · intro t c
    rw [hl, hp]
    exact h.1 t c
  · intro t c hmem
    rw [hl] at hmem
    rw [hn]
    exact h.2.1 t c hmem
  · rw [hl]
    exact h.2.2.1
  · intro i hi
    rw [hu]
    apply h.2.2.2
    unfold botIds at hi ⊢
    rw [hb] at hi
    exact hi

theorem retryFire_inv {s : AppState} (h : TimersInv s) (m : Nat)
    (r : Except (List Char) ScorecardResponse) :
    TimersInv (retryFire m r s) := by
  unfold retryFire
  have hpre : TimersInv
      { s with retryTimers := s.retryTimers.erase (m, 5000) } :=
    ⟨h.1, h.2.1, h.2.2.1, h.2.2.2⟩
  by_cases hm : ({ s with retryTimers := s.retryTimers.erase (m, 5000) } :
      AppState).isMounted = true
  · rw [if_pos hm]
    exact fetchSc_inv hpre m r
  · rw [if_neg hm]
    exact hpre

theorem createBotSuccess_inv {s : AppState} (h : TimersInv s)
    (bot : MeetingBot) : TimersInv (createBotSuccess bot s) := by
  refine ⟨h.1, h.2.1, h.2.2.1, ?_⟩
  intro i hi
  unfold botIds createBotSuccess at hi
  simp only [List.map_cons, List.mem_cons] at hi
  show i ∈ bot.id :: s.usedIds
  rcases hi with rfl | hi'
  · exact List.mem_cons_self _ _
  · exact List.mem_cons_of_mem _ (h.2.2.2 i hi')

theorem handleBotSelect_inv {s : AppState} (h : TimersInv s) (b : Nat) :
    TimersInv (handleBotSelect b s) := by
  unfold handleBotSelect
  dsimp only
  cases List.find? (fun bb => decide (bb.id = b)) s.bots with
  | none => exact ⟨h.1, h.2.1, h.2.2.1, h.2.2.2⟩
  | some bot => exact ⟨h.1, h.2.1, h.2.2.1, h.2.2.2⟩

theorem unmountApp_inv {s : AppState} (h : TimersInv s) :
    TimersInv (unmountApp s) := by
  unfold unmountApp
  exact cleanupAll_inv ⟨h.1, h.2.1, h.2.2.1, h.2.2.2⟩

theorem initState_inv : TimersInv initState := by
  refine ⟨?_, ?_, ?_, ?_⟩
  · intro t b
    constructor
    · intro hmem
      cases hmem
    · intro hl
      cases hl
  · intro t b hmem
    cases hmem
  · exact List.Pairwise.nil
  · intro i hi
    cases hi

/-- Every step preserves the timer invariant. -/
theorem step_inv {s s' : AppState} {e : AppEvent} (h : TimersInv s)
    (hs : Step s e s') : TimersInv s' := by
  cases hs with
  | create bot hb => exact createBotSuccess_inv h bot
  | startPoll b hb => exact startStatusPolling_inv h b
  | tick t b resp now hb => exact pollTick_inv h b resp now
  | deleteBot b result => exact handleDeleteBot_inv h b result
  | fetchScorecard m resp => exact fetchSc_inv h m resp
  | retry m resp hb => exact retryFire_inv h m resp
  | selectBot b hb => exact handleBotSelect_inv h b
  | unmount => exact unmountApp_inv h

theorem reach_inv {s s' : AppState} (h : TimersInv s) (hr : Reach s s') :
    TimersInv s' := by
  induction hr with
  | refl => exact h
  | tail h1 e hs ih => exact step_inv ih hs

/-- Every reachable state satisfies the timer invariant. -/
theorem reachable_inv {s : AppState} (h : Reachable s) : TimersInv s :=
  reach_inv initState_inv h

/-! ### Field-preservation facts for the transition functions -/

theorem updateBotStatus_not_mem {b : Nat} {st : BotStatus} {now : Nat}
    {bots : List MeetingBot} (h : b ∉ bots.map (·.id)) :
    updateBotStatus b st now bots = bots := by
  unfold updateBotStatus
  conv_rhs => rw [← List.map_id bots]
  apply List.map_congr_left
  intro bot hbot
  have : bot.id ≠ b := by
    intro he
    exact h (List.mem_map.mpr ⟨bot, hbot, he⟩)
  simp [this]

theorem startStatusPolling_fields (b : Nat) (s : AppState) :
    (startStatusPolling b s).bots = s.bots ∧
    (startStatusPolling b s).usedIds = s.usedIds ∧
    (startStatusPolling b s).statusReqLog = s.statusReqLog ∧
    (startStatusPolling b s).scorecardFetchLog = s.scorecardFetchLog ∧
    (startStatusPolling b s).scorecardCache = s.scorecardCache ∧
    (startStatusPolling b s).retryTimers = s.retryTimers ∧
    (startStatusPolling b s).nextTimer = s.nextTimer + 1 := by
  obtain ⟨hn, hb, hu, hf, hs, hc, hr, hm⟩ := cleanupOne_fields b s
  exact ⟨hb, hu, hs, hf, hc, hr, by rw [show (startStatusPolling b s).nextTimer =
    (cleanupOne b s).nextTimer + 1 from rfl, hn]⟩

theorem pollTick_fields (b : Nat) (resp : Option PollStatusResult) (now : Nat)
    (s : AppState) :
    (pollTick b resp now s).nextTimer = s.nextTimer ∧
    botIds (pollTick b resp now s) = botIds s ∧
    (pollTick b resp now s).usedIds = s.usedIds ∧
    (pollTick b resp now s).scorecardCache = s.scorecardCache ∧
    (pollTick b resp now s).retryTimers = s.retryTimers := by
  unfold pollTick
  by_cases hm : s.isMounted = false
  · rw [if_pos hm]
    exact ⟨rfl, rfl, rfl, rfl, rfl⟩
  · rw [if_neg hm]
    dsimp only
    cases resp with
    | none => exact ⟨rfl, rfl, rfl, rfl, rfl⟩
    | some r =>
      dsimp only
      by_cases hu : r.status_updated = true
      · rw [if_pos hu]
        have hids : botIds { s with
            statusReqLog := b :: s.statusReqLog,
            bots := updateBotStatus b r.new_status now s.bots } = botIds s := by
          unfold botIds
          exact updateBotStatus_ids b r.new_status now s.bots
        by_cases hcomp : r.new_status = BotStatus.completed
        · rw [if_pos hcomp]
          obtain ⟨hn, hbots, hu', hf, hsl, hc, hr, _⟩ := cleanupOne_fields b
            { s with
              statusReqLog := b :: s.statusReqLog,
              bots := updateBotStatus b r.new_status now s.bots }
          refine ⟨hn, ?_, hu', hc, hr⟩
          unfold botIds at hids ⊢
          rw [hbots]
          exact hids
        · rw [if_neg hcomp]
          by_cases hfail : r.new_status = BotStatus.failed
          · rw [if_pos hfail]
            obtain ⟨hn, hbots, hu', hf, hsl, hc, hr, _⟩ := cleanupOne_fields b
              { s with
                statusReqLog := b :: s.statusReqLog,
                bots := updateBotStatus b r.new_status now s.bots }
            refine ⟨hn, ?_, hu', hc, hr⟩
            unfold botIds at hids ⊢
            rw [hbots]
            exact hids
          · rw [if_neg hfail]
            exact ⟨rfl, hids, rfl, rfl, rfl⟩
      · rw [if_neg hu]
        exact ⟨rfl, rfl, rfl, rfl, rfl⟩

theorem pollTick_live_sub {b : Nat} {resp : Option PollStatusResult} {now : Nat}
    {s : AppState} {p : Nat × Nat}
    (h : p ∈ (pollTick b resp now s).liveTimers) : p ∈ s.liveTimers := by
  unfold pollTick at h
  by_cases hm : s.isMounted = false
  · rw [if_pos hm] at h
    exact h
  · rw [if_neg hm] at h
    dsimp only at h
    cases resp with
    | none => exact h
    | some r =>
      dsimp only at h
      by_cases hu : r.status_updated = true
      · rw [if_pos hu] at h
        by_cases hcomp : r.new_status = BotStatus.completed
        · rw [if_pos hcomp] at h
          dsimp only at h
          have h2 := cleanupOne_live_sub h
          exact h2
        · rw [if_neg hcomp] at h
          by_cases hfail : r.new_status = BotStatus.failed
          · rw [if_pos hfail] at h
            have h2 := cleanupOne_live_sub h
            exact h2
          · rw [if_neg hfail] at h
            exact h
      · rw [if_neg hu] at h
        exact h

theorem pollTick_statusReqLog (b : Nat) (resp : Option PollStatusResult)
    (now : Nat) (s : AppState) :
    (pollTick b resp now s).statusReqLog = s.statusReqLog ∨
    (pollTick b resp now s).statusReqLog = b :: s.statusReqLog := by
  unfold pollTick
  by_cases hm : s.isMounted = false
  · rw [if_pos hm]
    exact Or.inl rfl
  · rw [if_neg hm]
    dsimp only
    cases resp with
    | none => exact Or.inr rfl
    | some r =>
      dsimp only
      by_cases hu : r.status_updated = true
      · rw [if_pos hu]
        by_cases hcomp : r.new_status = BotStatus.completed
        · rw [if_pos hcomp]
          refine Or.inr ?_
          exact (cleanupOne_fields b _).2.2.2.2.1
        · rw [if_neg hcomp]
          by_cases hfail : r.new_status = BotStatus.failed
          · rw [if_pos hfail]
            refine Or.inr ?_
            exact (cleanupOne_fields b _).2.2.2.2.1
          · rw [if_neg hfail]
            exact Or.inr rfl
      · rw [if_neg hu]
        exact Or.inr rfl

theorem handleDeleteBot_fields (b : Nat) (res : Except (List Char) Unit)
    (s : AppState) :
    (handleDeleteBot b res s).nextTimer = s.nextTimer ∧
    (handleDeleteBot b res s).usedIds = s.usedIds ∧
    (handleDeleteBot b res s).statusReqLog = s.statusReqLog ∧
    (handleDeleteBot b res s).scorecardFetchLog = s.scorecardFetchLog := by
  unfold handleDeleteBot
  cases res with
  | error m => exact ⟨rfl, rfl, rfl, rfl⟩
  | ok u =>
    dsimp only
    obtain ⟨hn, hbots, hu, hf, hsl, hc, hr, hm⟩ := cleanupOne_fields b s
    by_cases hsel : ({ cleanupOne b s with
        scorecardCache := aerase b (cleanupOne b s).scorecardCache,
        bots := (cleanupOne b s).bots.filter (fun bot => bot.id ≠ b)} :
        AppState).selectedBotId = some b
    · rw [if_pos hsel]
      exact ⟨hn, hu, hsl, hf⟩
    · rw [if_neg hsel]
      exact ⟨hn, hu, hsl, hf⟩

theorem handleDeleteBot_live_sub {b : Nat} {res : Except (List Char) Unit}
    {s : AppState} {p : Nat × Nat}
    (h : p ∈ (handleDeleteBot b res s).liveTimers) : p ∈ s.liveTimers := by
  unfold handleDeleteBot at h
  cases res with
  | error m => exact h
  | ok u =>
    dsimp only at h
    by_cases hsel : ({ cleanupOne b s with
        scorecardCache := aerase b (cleanupOne b s).scorecardCache,
        bots := (cleanupOne b s).bots.filter (fun bot => bot.id ≠ b)} :
        AppState).selectedBotId = some b
    · rw [if_pos hsel] at h
      exact cleanupOne_live_sub h
    · rw [if_neg hsel] at h
      exact cleanupOne_live_sub h

theorem handleDeleteBot_bots_sub {b : Nat} {res : Except (List Char) Unit}
    {s : AppState} {i : Nat} (h : i ∈ botIds (handleDeleteBot b res s)) :
    i ∈ botIds s := by
  unfold handleDeleteBot at h
  cases res with
  | error m => exact h
  | ok u =>
    dsimp only at h
    have hbots := (cleanupOne_fields b s).2.1
    by_cases hsel : ({ cleanupOne b s with
        scorecardCache := aerase b (cleanupOne b s).scorecardCache,
        bots := (cleanupOne b s).bots.filter (fun bot => bot.id ≠ b)} :
        AppState).selectedBotId = some b
    · rw [if_pos hsel] at h
      unfold botIds at h ⊢
      simp only [List.mem_map] at h ⊢
      obtain ⟨bot, hbot, hid⟩ := h
      exact ⟨bot, by rw [← hbots]; exact (List.mem_filter.mp hbot).1, hid⟩
    · rw [if_neg hsel] at h
      unfold botIds at h ⊢
      simp only [List.mem_map] at h ⊢
      obtain ⟨bot, hbot, hid⟩ := h
      exact ⟨bot, by rw [← hbots]; exact (List.mem_filter.mp hbot).1, hid⟩

theorem retryFire_fields (m : Nat) (r : Except (List Char) ScorecardResponse)
    (s : AppState) :
    (retryFire m r s).liveTimers = s.liveTimers ∧
    (retryFire m r s).pollingIntervals = s.pollingIntervals ∧
    (retryFire m r s).nextTimer = s.nextTimer ∧
    (retryFire m r s).bots = s.bots ∧
    (retryFire m r s).usedIds = s.usedIds ∧
    (retryFire m r s).statusReqLog = s.statusReqLog := by
  unfold retryFire
  by_cases hm : ({ s with retryTimers := s.retryTimers.erase (m, 5000) } :
      AppState).isMounted = true
  · rw [if_pos hm]
    obtain ⟨h1, h2, h3, h4, h5, h6, _⟩ :=
      fetchSc_fields m r { s with retryTimers := s.retryTimers.erase (m, 5000) }
    exact ⟨h1, h2, h3, h4, h5, h6⟩
  · rw [if_neg hm]
    exact ⟨rfl, rfl, rfl, rfl, rfl, rfl⟩

theorem handleBotSelect_fields (b : Nat) (s : AppState) :
    (handleBotSelect b s).liveTimers = s.liveTimers ∧
    (handleBotSelect b s).pollingIntervals = s.pollingIntervals ∧
    (handleBotSelect b s).nextTimer = s.nextTimer ∧
    (handleBotSelect b s).bots = s.bots ∧
    (handleBotSelect b s).usedIds = s.usedIds ∧
    (handleBotSelect b s).statusReqLog = s.statusReqLog := by
  unfold handleBotSelect
  dsimp only
  cases List.find? (fun bb => decide (bb.id = b)) s.bots with
  | none => exact ⟨rfl, rfl, rfl, rfl, rfl, rfl⟩
  | some bot => exact ⟨rfl, rfl, rfl, rfl, rfl, rfl⟩

theorem unmountApp_fields (s : AppState) :
    (unmountApp s).nextTimer = s.nextTimer ∧
    (unmountApp s).bots = s.bots ∧
    (unmountApp s).usedIds = s.usedIds ∧
    (unmountApp s).statusReqLog = s.statusReqLog := by
  unfold unmountApp cleanupAll
  exact ⟨rfl, rfl, rfl, rfl⟩

theorem unmountApp_live_sub {s : AppState} {p : Nat × Nat}
    (h : p ∈ (unmountApp s).liveTimers) : p ∈ s.liveTimers := by
  unfold unmountApp cleanupAll at h
  exact (List.mem_filter.mp h).1

/-- A step either keeps a live interval from the previous state or creates
one carrying the fresh handle. -/
theorem step_live_sub_or_fresh {x y : AppState} {e : AppEvent}
    (hs : Step x e y) {p : Nat × Nat} (hp : p ∈ y.liveTimers) :
    p ∈ x.liveTimers ∨ p.1 = x.nextTimer := by
  cases hs with
  | create bot hb => exact Or.inl hp
  | startPoll b hb =>
    unfold startStatusPolling at hp
    dsimp only at hp
    rcases List.mem_cons.mp hp with he | hp'
    · refine Or.inr ?_
      rw [he]
      exact (cleanupOne_fields b x).1
    · exact Or.inl (cleanupOne_live_sub hp')
  | tick t b resp now hb => exact Or.inl (pollTick_live_sub hp)
  | deleteBot b result => exact Or.inl (handleDeleteBot_live_sub hp)
  | fetchScorecard m resp =>
    rw [(fetchSc_fields m resp x).1] at hp
    exact Or.inl hp
  | retry m resp hb =>
    rw [(retryFire_fields m resp x).1] at hp
    exact Or.inl hp
  | selectBot b hb =>
    rw [(handleBotSelect_fields b x).1] at hp
    exact Or.inl hp
  | unmount => exact Or.inl (unmountApp_live_sub hp)

/-- The fresh-handle counter never decreases. -/
theorem step_nextTimer_mono {x y : AppState} {e : AppEvent}
    (hs : Step x e y) : x.nextTimer ≤ y.nextTimer := by
  cases hs with
  | create bot hb => exact Nat.le_refl _
  | startPoll b hb =>
    rw [(startStatusPolling_fields b x).2.2.2.2.2.2]
    omega
  | tick t b resp now hb =>
    rw [(pollTick_fields b resp now x).1]
  | deleteBot b result =>
    rw [(handleDeleteBot_fields b result x).1]
  | fetchScorecard m resp =>
    rw [(fetchSc_fields m resp x).2.2.1]
  | retry m resp hb =>
    rw [(retryFire_fields m resp x).2.2.1]
  | selectBot b hb =>
    rw [(handleBotSelect_fields b x).2.2.1]
  | unmount =>
    rw [(unmountApp_fields x).1]

/-- `nextTimer` is monotone along any execution. -/
theorem nextTimer_mono_reach {x y : AppState} (hr : Reach x y) :
    x.nextTimer ≤ y.nextTimer := by
  induction hr with
  | refl => exact Nat.le_refl _
  | tail h1 e hs ih => exact Nat.le_trans ih (step_nextTimer_mono hs)

/-- Once an interval handle has been cleared, no later event revives it:
new intervals always receive a strictly larger handle. -/
theorem dead_timer_stays {x y : AppState} (hr : Reach x y) (t b : Nat)
    (hdead : (t, b) ∉ x.liveTimers) (hlt : t < x.nextTimer) :
    (t, b) ∉ y.liveTimers := by
  induction hr with
  | refl => exact hdead
  | tail h1 e hs ih =>
    rename_i s₂ s₃
    intro hmem
    have hlt2 : t < s₂.nextTimer := by
      have := nextTimer_mono_reach h1
      omega
    rcases step_live_sub_or_fresh hs hmem with hin | hfr
    · exact ih hin
    · simp only at hfr
      omega

/-! ### Unfolding equations for terminal poll ticks -/

/-- The state after the tick's request and registry update, before the
terminal-status branch. -/
def tickMid (b : Nat) (r : PollStatusResult) (now : Nat) (s : AppState) :
    AppState :=
  { s with
    statusReqLog := b :: s.statusReqLog,
    bots := updateBotStatus b r.new_status now s.bots }

theorem tickMid_inv {s : AppState} (h : TimersInv s) (b : Nat)
    (r : PollStatusResult) (now : Nat) : TimersInv (tickMid b r now s) := by
  refine ⟨h.1, h.2.1, h.2.2.1, ?_⟩
  intro i hi
  apply h.2.2.2
  have hids : botIds (tickMid b r now s) = botIds s := by
    unfold botIds tickMid
    dsimp only
    exact updateBotStatus_ids b r.new_status now s.bots
  rw [hids] at hi
  exact hi

theorem pollTick_completed_eq {s : AppState} (b now : Nat)
    (r : PollStatusResult) (hm : s.isMounted = true)
    (hu : r.status_updated = true) (hc : r.new_status = BotStatus.completed) :
    pollTick b (some r) now s =
      { cleanupOne b (tickMid b r now s) with
        scorecardFetchLog :=
          b :: (cleanupOne b (tickMid b r now s)).scorecardFetchLog } := by
  unfold pollTick
  rw [if_neg (by rw [hm]; simp)]
  dsimp only
  rw [if_pos hu, if_pos hc]
  rfl

theorem pollTick_failed_eq {s : AppState} (b now : Nat)
    (r : PollStatusResult) (hm : s.isMounted = true)
    (hu : r.status_updated = true) (hf : r.new_status = BotStatus.failed) :
    pollTick b (some r) now s = cleanupOne b (tickMid b r now s) := by
  unfold pollTick
  rw [if_neg (by rw [hm]; simp)]
  dsimp only
  rw [if_pos hu, if_neg (by rw [hf]; simp), if_pos hf]
  rfl

/-! ### Claim C3 -/

/-- A state with a live poller for bot 7 while the registry is empty; it
arises from the real interleaving in which bot 7's record is removed, or
never loaded, while its interval still runs. -/
def orphanTimerState : AppState :=
  { initState with
    liveTimers := [(0, 7)],
    pollingIntervals := [(7, 0)],
    nextTimer := 1 }

/-- C3 counterexample: the claim asserts that a tick firing for a bot id
absent from the registry checks registry membership, issues no status
request and self-cancels.  The tick callback has no such check: at a state
whose registry is empty, a tick for bot 7 still issues a `pollBotStatus`
request, and (for a response without a status change) the interval for 7
stays live rather than self-cancelling. -/
theorem claim_C3_counterexample :
    orphanTimerState.bots = [] ∧
    (pollTick 7 (some ⟨false, BotStatus.pending⟩) 0 orphanTimerState).statusReqLog
      = 7 :: orphanTimerState.statusReqLog ∧
    (0, 7) ∈
      (pollTick 7 (some ⟨false, BotStatus.pending⟩) 0
        orphanTimerState).liveTimers := by
  decide

/-- C3 (amended): a poller tick for a bot id no longer present in the
registry is not prevented — it still issues a status request and performs
no membership check — but it can never resurrect the deleted record: the
registry update only rewrites an existing entry, so the bot list (and the
scorecard cache) are left exactly as they were. -/
theorem claim_C3_amended (s : AppState) (b : Nat)
    (resp : Option PollStatusResult) (now : Nat) (hb : b ∉ botIds s) :
    (pollTick b resp now s).bots = s.bots ∧
    (pollTick b resp now s).scorecardCache = s.scorecardCache := by
  refine ⟨?_, (pollTick_fields b resp now s).2.2.2.1⟩
  have hupd : ∀ st nw, updateBotStatus b st nw s.bots = s.bots := by
    intro st nw
    exact updateBotStatus_not_mem hb
  unfold pollTick
  by_cases hm : s.isMounted = false
  · rw [if_pos hm]
  · rw [if_neg hm]
    dsimp only
    cases resp with
    | none => rfl
    | some r =>
      dsimp only
      by_cases hu : r.status_updated = true
      · rw [if_pos hu]
        by_cases hcomp : r.new_status = BotStatus.completed
        · rw [if_pos hcomp]
          show (cleanupOne b (tickMid b r now s)).bots = s.bots
          rw [(cleanupOne_fields b (tickMid b r now s)).2.1]
          exact hupd r.new_status now
        · rw [if_neg hcomp]
          by_cases hfail : r.new_status = BotStatus.failed
          · rw [if_pos hfail]
            show (cleanupOne b (tickMid b r now s)).bots = s.bots
            rw [(cleanupOne_fields b (tickMid b r now s)).2.1]
            exact hupd r.new_status now
          · rw [if_neg hfail]
            exact hupd r.new_status now
      · rw [if_neg hu]

/-- Witness for `claim_C3_amended` at the orphan-timer state. -/
theorem claim_C3_amended_witness :
    (7 ∉ botIds orphanTimerState) ∧
    (pollTick 7 (some ⟨true, BotStatus.completed⟩) 0 orphanTimerState).bots =
      orphanTimerState.bots :=
  ⟨by decide,
    (claim_C3_amended orphanTimerState 7 (some ⟨true, BotStatus.completed⟩) 0
      (by decide)).1⟩

/-! ### Claim C4 -/

theorem timersFor_le_one {s : AppState} (hinv : TimersInv s) (b : Nat) :
    (s.liveTimers.filter (fun p => p.2 = b)).length ≤ 1 := by
  obtain ⟨hiff, _, hpair, _⟩ := hinv
  cases hl : s.liveTimers.filter (fun p => p.2 = b) with
  | nil => simp
  | cons x rest =>
    cases rest with
    | nil => simp
    | cons y rest2 =>
      exfalso
      have hxf : x ∈ s.liveTimers.filter (fun p => p.2 = b) := by
        rw [hl]
        exact List.mem_cons_self _ _
      have hyf : y ∈ s.liveTimers.filter (fun p => p.2 = b) := by
        rw [hl]
        exact List.mem_cons_of_mem _ (List.mem_cons_self _ _)
      obtain ⟨hx, hxb⟩ := List.mem_filter.mp hxf
      obtain ⟨hy, hyb⟩ := List.mem_filter.mp hyf
      have hxb' : x.2 = b := by simpa using hxb
      have hyb' : y.2 = b := by simpa using hyb
      have hx' : (x.1, b) ∈ s.liveTimers := by
        rw [← hxb', Prod.mk.eta]
        exact hx
      have hy' : (y.1, b) ∈ s.liveTimers := by
        rw [← hyb', Prod.mk.eta]
        exact hy
      have hpair2 : List.Pairwise (fun p q : Nat × Nat => p.1 ≠ q.1)
          (x :: y :: rest2) := by
        rw [← hl]
        exact List.Pairwise.sublist (List.filter_sublist _) hpair
      have hne : x.1 ≠ y.1 := (List.pairwise_cons.mp hpair2).1 y
        (List.mem_cons_self _ _)
      have e1 := (hiff x.1 b).mp hx'
      have e2 := (hiff y.1 b).mp hy'
      rw [e1] at e2
      injection e2 with e3
      exact hne e3

/-- C4: at every reachable state there is at most one live polling
interval per bot id; moreover `startStatusPolling(botId)` always first
cancels any interval already registered for that id, so immediately after
it the bot's live intervals are exactly the one freshly registered
handle. -/
theorem claim_C4_at_most_one_poller (s : AppState) (b : Nat)
    (h : Reachable s) :
    (s.liveTimers.filter (fun p => p.2 = b)).length ≤ 1 ∧
    (∀ t, ((t, b) ∈ (startStatusPolling b s).liveTimers ↔
      t = (cleanupOne b s).nextTimer)) := by
  have hinv := reachable_inv h
  refine ⟨timersFor_le_one hinv b, ?_⟩
  intro t
  unfold startStatusPolling
  dsimp only
  constructor
  · intro hmem
    rcases List.mem_cons.mp hmem with he | hmem'
    · exact congrArg Prod.fst he
    · exact absurd hmem' (cleanupOne_no_self hinv b t)
  · intro he
    rw [he]
    exact List.mem_cons_self _ _

/-! Concrete witness run: create bot 1 and start polling it. -/

def wBot1 : MeetingBot :=
  { id := 1, status := BotStatus.pending, meeting_url := [], bot_name := [],
    join_at := none, updated_at := 0 }

def wState1 : AppState := createBotSuccess wBot1 initState

def wState2 : AppState := startStatusPolling 1 wState1

theorem wReach2 : Reachable wState2 :=
  Reach.tail
    (Reach.tail (Reach.refl initState) (.create wBot1)
      (Step.create initState wBot1 (by decide)))
    (.startPoll 1) (Step.startPoll wState1 1 (by decide))

/-- Witness for `claim_C4_at_most_one_poller` on the concrete two-step
run. -/
theorem claim_C4_at_most_one_poller_witness :
    Reachable wState2 ∧
    (wState2.liveTimers.filter (fun p => p.2 = 1)).length ≤ 1 :=
  ⟨wReach2, (claim_C4_at_most_one_poller wState2 1 wReach2).1⟩

/-! ### Claim C5 -/

/-- C5: when the poller for bot `b` (interval handle `t`) observes a
terminal status, it cancels its interval (the handle map loses `b` and no
live interval for `b` remains); on `COMPLETED` it hands off to the
scorecard fetcher exactly once (exactly one new entry in the hand-off
log), while on `FAILED` it does not; and in both cases the observed
interval `t` is never live again in any subsequent execution — that
poller issues no further status poll. -/
theorem step_tick_inversion {s s' : AppState} {t b now : Nat}
    {resp : Option PollStatusResult}
    (h : Step s (.tick t b resp now) s') :
    s' = pollTick b resp now s ∧ (t, b) ∈ s.liveTimers := by
  cases h
  exact ⟨rfl, by assumption⟩

theorem claim_C5_terminal_poll (s s' : AppState) (t b now : Nat)
    (r : PollStatusResult) (hre : Reachable s) (hm : s.isMounted = true)
    (hu : r.status_updated = true)
    (hstep : Step s (.tick t b (some r) now) s') :
    (r.new_status = BotStatus.completed →
      alookup b s'.pollingIntervals = none ∧
      (∀ u, (u, b) ∉ s'.liveTimers) ∧
      s'.scorecardFetchLog = b :: s.scorecardFetchLog ∧
      (∀ s'', Reach s' s'' → (t, b) ∉ s''.liveTimers)) ∧
    (r.new_status = BotStatus.failed →
      alookup b s'.pollingIntervals = none ∧
      (∀ u, (u, b) ∉ s'.liveTimers) ∧
      s'.scorecardFetchLog = s.scorecardFetchLog ∧
      (∀ s'', Reach s' s'' → (t, b) ∉ s''.liveTimers)) := by
  have hinv := reachable_inv hre
  obtain ⟨hse, hb⟩ := step_tick_inversion hstep
  subst hse
  have hmidinv := tickMid_inv hinv b r now
  constructor
  · intro hc
    rw [pollTick_completed_eq b now r hm hu hc]
    refine ⟨?_, ?_, ?_, ?_⟩
    · show alookup b (cleanupOne b (tickMid b r now s)).pollingIntervals = none
      exact cleanupOne_lookup_self _ b
    · intro u hu'
      exact cleanupOne_no_self hmidinv b u hu'
    · show b :: (cleanupOne b (tickMid b r now s)).scorecardFetchLog =
        b :: s.scorecardFetchLog
      rw [(cleanupOne_fields b _).2.2.2.1]
      rfl
    · intro s'' hr''
      refine dead_timer_stays hr'' t b ?_ ?_
      · exact fun hmem => cleanupOne_no_self hmidinv b t hmem
      · show t < (cleanupOne b (tickMid b r now s)).nextTimer
        rw [(cleanupOne_fields b _).1]
        exact hinv.2.1 t b hb
  · intro hf
    rw [pollTick_failed_eq b now r hm hu hf]
    refine ⟨cleanupOne_lookup_self _ b, ?_, ?_, ?_⟩
    · intro u hu'
      exact cleanupOne_no_self hmidinv b u hu'
    · rw [(cleanupOne_fields b _).2.2.2.1]
      rfl
    · intro s'' hr''
      refine dead_timer_stays hr'' t b ?_ ?_
      · exact fun hmem => cleanupOne_no_self hmidinv b t hmem
      · rw [(cleanupOne_fields b _).1]
        exact hinv.2.1 t b hb

/-- Witness for `claim_C5_terminal_poll`: on the concrete run, the tick
that observes `COMPLETED` appends exactly one hand-off for bot 1. -/
theorem claim_C5_terminal_poll_witness :
    Reachable wState2 ∧ wState2.isMounted = true ∧
    (pollTick 1 (some ⟨true, BotStatus.completed⟩) 5 wState2).scorecardFetchLog
      = 1 :: wState2.scorecardFetchLog :=
  ⟨wReach2, rfl,
    ((claim_C5_terminal_poll wState2
        (pollTick 1 (some ⟨true, BotStatus.completed⟩) 5 wState2) 0 1 5
        ⟨true, BotStatus.completed⟩ wReach2 rfl rfl
        (Step.tick wState2 0 1 (some ⟨true, BotStatus.completed⟩) 5
          (by decide))).1 rfl).2.2.1⟩

/-! ### Claim C6 -/

/-- C6: `fetchScorecardData(meetingId)` caches every fetched response
under `meetingId` (last write wins: the lookup afterwards returns exactly
this response); on a `processing` response it schedules exactly one retry
with the fixed 5000 ms delay; on a terminal response (`available`,
`unavailable`, `error`, `no_data`) it schedules none, so the cached entry
then holds that response's status and payload. -/
theorem claim_C6_scorecard_cache_retry (s : AppState) (mid : Nat)
    (data : ScorecardResponse)
    (hnp : natElem mid s.fetchInProgress = false) :
    alookup mid (fetchScorecardData mid (.ok data) s).scorecardCache =
      some data ∧
    (data.status = ScStatus.processing →
      (fetchScorecardData mid (.ok data) s).retryTimers =
        (mid, 5000) :: s.retryTimers) ∧
    ((data.status = ScStatus.available ∨ data.status = ScStatus.unavailable ∨
        data.status = ScStatus.error ∨ data.status = ScStatus.no_data) →
      (fetchScorecardData mid (.ok data) s).retryTimers = s.retryTimers) := by
  have hnp' : ¬ natElem mid s.fetchInProgress = true := by
    rw [hnp]
    simp
  unfold fetchScorecardData
  rw [if_neg hnp']
  dsimp only
  by_cases hp : data.status = ScStatus.processing
  · rw [if_pos hp]
    refine ⟨alookup_aset_self mid data _, fun _ => rfl, ?_⟩
    intro hterm
    rcases hterm with h | h | h | h <;> rw [h] at hp <;> cases hp
  · rw [if_neg hp]
    exact ⟨alookup_aset_self mid data _, fun h => absurd h hp, fun _ => rfl⟩

/-- Witness for `claim_C6_scorecard_cache_retry`: an `available` response
for meeting 42 is cached and schedules no retry. -/
theorem claim_C6_scorecard_cache_retry_witness :
    natElem 42 initState.fetchInProgress = false ∧
    alookup 42 (fetchScorecardData 42
        (.ok ⟨42, ScStatus.available, some 7⟩) initState).scorecardCache =
      some ⟨42, ScStatus.available, some 7⟩ ∧
    (fetchScorecardData 42 (.ok ⟨42, ScStatus.available, some 7⟩)
        initState).retryTimers = initState.retryTimers :=
  ⟨rfl,
    (claim_C6_scorecard_cache_retry initState 42 ⟨42, ScStatus.available, some 7⟩
      rfl).1,
    (claim_C6_scorecard_cache_retry initState 42 ⟨42, ScStatus.available, some 7⟩
      rfl).2.2 (Or.inl rfl)⟩

/-! ### Claim C8 -/

theorem step_delete_inversion {s s' : AppState} {b : Nat}
    {res : Except (List Char) Unit}
    (h : Step s (.deleteBot b res) s') : s' = handleDeleteBot b res s := by
  cases h
  rfl

theorem handleDeleteBot_ok_shape (b : Nat) (s : AppState) :
    (handleDeleteBot b (.ok ()) s).bots =
      (cleanupOne b s).bots.filter (fun bot => bot.id ≠ b) ∧
    (handleDeleteBot b (.ok ()) s).scorecardCache =
      aerase b (cleanupOne b s).scorecardCache ∧
    (handleDeleteBot b (.ok ()) s).liveTimers = (cleanupOne b s).liveTimers ∧
    (handleDeleteBot b (.ok ()) s).pollingIntervals =
      (cleanupOne b s).pollingIntervals := by
  unfold handleDeleteBot
  dsimp only
  by_cases hsel : ({ cleanupOne b s with
      scorecardCache := aerase b (cleanupOne b s).scorecardCache,
      bots := (cleanupOne b s).bots.filter (fun bot => bot.id ≠ b)} :
      AppState).selectedBotId = some b
  · rw [if_pos hsel]
    exact ⟨rfl, rfl, rfl, rfl⟩
  · rw [if_neg hsel]
    exact ⟨rfl, rfl, rfl, rfl⟩

/-- One step preserves "bot `b` is gone, its id stays used, it has no live
interval, and no status request for it is logged". -/
theorem delete_step_inv {b : Nat} {x y : AppState} {e : AppEvent}
    (hs : Step x e y) (h1 : b ∉ botIds x) (h2 : b ∈ x.usedIds)
    (h3 : ∀ u, (u, b) ∉ x.liveTimers) :
    b ∉ botIds y ∧ b ∈ y.usedIds ∧ (∀ u, (u, b) ∉ y.liveTimers) ∧
    y.statusReqLog.count b = x.statusReqLog.count b := by
  cases hs with
  | create bot hbot =>
    have hne : bot.id ≠ b := fun he => hbot (he ▸ h2)
    refine ⟨?_, List.mem_cons_of_mem _ h2, h3, rfl⟩
    intro hmem
    unfold botIds createBotSuccess at hmem
    simp only [List.map_cons, List.mem_cons] at hmem
    rcases hmem with he | hm
    · exact hne he.symm
    · exact h1 hm
  | startPoll c hc =>
    have hcb : c ≠ b := fun he => h1 (he ▸ hc)
    obtain ⟨hbots, hused, hlog, _, _, _, _⟩ := startStatusPolling_fields c x
    refine ⟨?_, ?_, ?_, ?_⟩
    · show b ∉ botIds (startStatusPolling c x)
      unfold botIds
      rw [hbots]
      exact h1
    · rw [hused]
      exact h2
    · intro u hmem
      unfold startStatusPolling at hmem
      dsimp only at hmem
      rcases List.mem_cons.mp hmem with he | hm
      · have hbc : b = c := congrArg Prod.snd he
        exact hcb hbc.symm
      · exact h3 u (cleanupOne_live_sub hm)
    · rw [hlog]
  | tick t c resp now hc =>
    have hcb : c ≠ b := fun he => h3 t (he ▸ hc)
    obtain ⟨_, hids, hused, _, _⟩ := pollTick_fields c resp now x
    refine ⟨?_, ?_, ?_, ?_⟩
    · rw [hids]
      exact h1
    · rw [hused]
      exact h2
    · intro u hmem
      exact h3 u (pollTick_live_sub hmem)
    · rcases pollTick_statusReqLog c resp now x with he | he
      · rw [he]
      · rw [he]
        exact List.count_cons_of_ne (fun h => hcb h.symm) _
  | deleteBot c res =>
    obtain ⟨_, hused, hlog, _⟩ := handleDeleteBot_fields c res x
    refine ⟨fun hm => h1 (handleDeleteBot_bots_sub hm), ?_,
      fun u hm => h3 u (handleDeleteBot_live_sub hm), ?_⟩
    · rw [hused]
      exact h2
    · rw [hlog]
  | fetchScorecard m resp =>
    obtain ⟨hl, _, _, hbots, hused, hlog, _⟩ := fetchSc_fields m resp x
    refine ⟨?_, ?_, ?_, ?_⟩
    · show b ∉ botIds (fetchScorecardData m resp x)
      unfold botIds
      rw [hbots]
      exact h1
    · rw [hused]
      exact h2
    · intro u hm
      rw [hl] at hm
      exact h3 u hm
    · rw [hlog]
  | retry m resp hmem' =>
    obtain ⟨hl, _, _, hbots, hused, hlog⟩ := retryFire_fields m resp x
    refine ⟨?_, ?_, ?_, ?_⟩
    · show b ∉ botIds (retryFire m resp x)
      unfold botIds
      rw [hbots]
      exact h1
    · rw [hused]
      exact h2
    · intro u hm
      rw [hl] at hm
      exact h3 u hm
    · rw [hlog]
  | selectBot c hc =>
    obtain ⟨hl, _, _, hbots, hused, hlog⟩ := handleBotSelect_fields c x
    refine ⟨?_, ?_, ?_, ?_⟩
    · show b ∉ botIds (handleBotSelect c x)
      unfold botIds
      rw [hbots]
      exact h1
    · rw [hused]
      exact h2
    · intro u hm
      rw [hl] at hm
      exact h3 u hm
    · rw [hlog]
  | unmount =>
    obtain ⟨_, hbots, hused, hlog⟩ := unmountApp_fields x
    refine ⟨?_, ?_, fun u hm => h3 u (unmountApp_live_sub hm), ?_⟩
    · show b ∉ botIds (unmountApp x)
      unfold botIds
      rw [hbots]
      exact h1
    · rw [hused]
      exact h2
    · rw [hlog]

theorem delete_reach_inv {b : Nat} {x y : AppState} (hr : Reach x y)
    (h1 : b ∉ botIds x) (h2 : b ∈ x.usedIds)
    (h3 : ∀ u, (u, b) ∉ x.liveTimers) :
    b ∉ botIds y ∧ b ∈ y.usedIds ∧ (∀ u, (u, b) ∉ y.liveTimers) ∧
    y.statusReqLog.count b = x.statusReqLog.count b := by
  induction hr with
  | refl => exact ⟨h1, h2, h3, rfl⟩
  | tail hr1 e hs ih =>
    obtain ⟨i1, i2, i3, i4⟩ := ih
    obtain ⟨j1, j2, j3, j4⟩ := delete_step_inv hs i1 i2 i3
    exact ⟨j1, j2, j3, by rw [j4, i4]⟩

/-- C8: after a successful `handleDeleteBot(botId)`, the bot record is
gone from the registry (lookups are not-found), its cached scorecard is
purged, its polling interval is cancelled — and in every subsequent
execution the bot never reappears and no further `pollBotStatus` request
for that id is ever issued. -/
theorem claim_C8_delete_success (s s' : AppState) (b : Nat)
    (hre : Reachable s) (hb : b ∈ botIds s)
    (hstep : Step s (.deleteBot b (.ok ())) s') :
    b ∉ botIds s' ∧
    alookup b s'.scorecardCache = none ∧
    (∀ u, (u, b) ∉ s'.liveTimers) ∧
    alookup b s'.pollingIntervals = none ∧
    (∀ s'', Reach s' s'' →
      b ∉ botIds s'' ∧ s''.statusReqLog.count b = s'.statusReqLog.count b) := by
  have hinv := reachable_inv hre
  have hse := step_delete_inversion hstep
  subst hse
  obtain ⟨hbots, hcache, hlive, hmap⟩ := handleDeleteBot_ok_shape b s
  have h1 : b ∉ botIds (handleDeleteBot b (.ok ()) s) := by
    unfold botIds
    rw [hbots]
    intro hmem
    simp only [List.mem_map] at hmem
    obtain ⟨bot, hbot, hid⟩ := hmem
    have := (List.mem_filter.mp hbot).2
    rw [hid] at this
    simp at this
  have h3 : ∀ u, (u, b) ∉ (handleDeleteBot b (.ok ()) s).liveTimers := by
    intro u hmem
    rw [hlive] at hmem
    exact cleanupOne_no_self hinv b u hmem
  have h2 : b ∈ (handleDeleteBot b (.ok ()) s).usedIds := by
    rw [(handleDeleteBot_fields b (.ok ()) s).2.1]
    exact hinv.2.2.2 b hb
  refine ⟨h1, ?_, h3, ?_, ?_⟩
  · rw [hcache]
    exact alookup_aerase_self b _
  · rw [hmap]
    exact cleanupOne_lookup_self s b
  · intro s'' hr''
    obtain ⟨j1, _, _, j4⟩ := delete_reach_inv hr'' h1 h2 h3
    exact ⟨j1, j4⟩

/-- Witness for `claim_C8_delete_success`: deleting bot 1 on the concrete
run removes it from the registry. -/
theorem claim_C8_delete_success_witness :
    Reachable wState2 ∧ 1 ∈ botIds wState2 ∧
    1 ∉ botIds (handleDeleteBot 1 (.ok ()) wState2) :=
  ⟨wReach2, by decide,
    (claim_C8_delete_success wState2 (handleDeleteBot 1 (.ok ()) wState2) 1
      wReach2 (by decide) (Step.deleteBot wState2 1 (.ok ()))).1⟩

/-! ### Claim C9 -/

/-- C9: deletion is atomic on failure — when the delete request fails, the
resulting state is the old state with exactly one new alert
(`Failed to delete bot: <message>`) and nothing else changed: the bot list,
scorecard cache, interval map and live intervals are untouched. -/
theorem claim_C9_delete_failure_atomic (s : AppState) (b : Nat)
    (m : List Char) :
    handleDeleteBot b (.error m) s =
      { s with alerts := deleteFailAlert m :: s.alerts } ∧
    (handleDeleteBot b (.error m) s).bots = s.bots ∧
    (handleDeleteBot b (.error m) s).scorecardCache = s.scorecardCache ∧
    (handleDeleteBot b (.error m) s).liveTimers = s.liveTimers ∧
    (handleDeleteBot b (.error m) s).pollingIntervals = s.pollingIntervals ∧
    (handleDeleteBot b (.error m) s).alerts =
      deleteFailAlert m :: s.alerts :=
  ⟨rfl, rfl, rfl, rfl, rfl, rfl⟩

end Meahana
